import Mathlib

/-!
Verification of the transcript ingestion pipeline and pattern-mining engine
of the prompt-playground repository, as a shallow embedding in Lean.

Conventions used throughout the embedding:
* JavaScript strings are Lean `String`s.  Nullable string fields (and string
  fields that JavaScript treats by truthiness, where both `null`/`undefined`
  and `""` are falsy) are embedded as plain `String`s with `""` standing for
  the absent value; the parser only ever stores non-empty strings in them,
  so no information is lost.
* A JSONL transcript file is embedded as the list of its successfully
  JSON-parsed line objects together with its total byte length: blank and
  malformed lines are silently dropped by the source
  (`content.split("\n").filter(...)` followed by a try/catch around
  `JSON.parse`), so only the surviving entries and `Buffer.byteLength` of the
  content are observable.  An unreadable file is `Option.none`.
* SQLite tables are embedded as lists of row structures; `INSERT ... ON
  CONFLICT DO UPDATE` statements become insert-or-map-update functions.
* SQL `ORDER BY` is embedded with `List.insertionSort`, `GROUP BY` with
  `List.dedup`/`List.count`, `LIMIT n` with `List.take n`.
* The SQL window condition `started_at >= datetime('now', '-N days')` and the
  `project_path LIKE '%filter%'` condition are embedded as parameters
  `recent : String → Bool` and `pfilter : String → Bool`; every theorem below
  holds for all instantiations of these predicates.
-/

namespace PromptPlayground

/-! ### Transcript parser data model (src parser module) -/

/-- One `tool_use` content block's name and id, as collected by the parser
(`ToolUse` in the source). -/
structure ToolUse where
  name : String
  bid : String
  deriving Repr, DecidableEq

/-- One element of a structured `message.content` array.  The source's
`ContentBlock` interface has `type`, `text?`, `name?`, `id?`; in addition the
user-text extractor tolerates plain string elements in the array
(`typeof block === "string"`), so the embedding is a sum. -/
inductive CBlock where
  | str (s : String)
  | obj (btype : String) (text : String) (name : String) (bid : String)
  deriving Repr, DecidableEq

/-- Embedding of `message.content`: either a plain string payload or a list of blocks. -/
inductive MsgContent where
  | str (s : String)
  | blocks (bs : List CBlock)
  deriving Repr, DecidableEq

/-- The `message` field of a transcript entry (role / stop_reason / usage are
never read by the parser and are omitted). `model = ""` stands for an absent
model. -/
structure Message where
  content : MsgContent
  model : String
  deriving Repr, DecidableEq

/-- One successfully parsed JSONL line (`TranscriptEntry` in the source).
`sessionId`, `cwd`, `version`, `gitBranch` use `""` for absent, matching the
truthiness tests `e.sessionId`, `e.cwd`, `e.version`, `e.gitBranch`. -/
structure TranscriptEntry where
  etype : String
  timestamp : String
  sessionId : String
  cwd : String
  version : String
  gitBranch : String
  message : Option Message
  deriving Repr, DecidableEq

/-- One reconstructed human-prompt/assistant-response turn (`ParsedTurn`).
`assistantAt = ""` and `model = ""` stand for `null`. -/
structure ParsedTurn where
  turnNumber : Nat
  userPrompt : String
  userPromptAt : String
  assistantTexts : List String
  assistantTools : List ToolUse
  assistantAt : String
  model : String
  deriving Repr, DecidableEq

/-- A parsed session (`ParsedSession`); `version = ""` / `gitBranch = ""`
stand for `null`. -/
structure ParsedSession where
  id : String
  projectPath : String
  projectHash : String
  jsonlPath : String
  startedAt : String
  lastActivityAt : String
  version : String
  gitBranch : String
  turns : List ParsedTurn
  deriving Repr, DecidableEq

/-- The observable content of one transcript file: the JSON objects of its
parseable lines, and `Buffer.byteLength` of the whole content. -/
structure RawFile where
  entries : List TranscriptEntry
  byteLen : Nat
  deriving Repr, DecidableEq

/-! ### String primitives

JavaScript's `String.prototype.trim`, `startsWith`, `join` and node's
`path.basename(path.dirname(...))` are embedded structurally over the
character list of a Lean `String`, so that every definition evaluates by
kernel reduction. -/

/-- JavaScript `s.trim()`: strip leading and trailing whitespace. -/
def jsTrim (s : String) : String :=
  ⟨((s.data.dropWhile Char.isWhitespace).reverse.dropWhile Char.isWhitespace).reverse⟩

/-- JavaScript `s.startsWith(p)`. -/
def jsStartsWith (s p : String) : Bool :=
  p.data.isPrefixOf s.data

/-- JavaScript `l.join(sep)`. -/
def jsJoin (sep : String) (l : List String) : String :=
  match l with
  | [] => ""
  | h :: t => t.foldl (fun acc x => acc ++ sep ++ x) h

/-- Node `path.basename(path.dirname(p))` for a path with at least two
`/`-separated components: the name of the directory containing `p`. -/
def parentDirName (p : String) : String :=
  ⟨(((p.data.reverse.dropWhile (· ≠ '/')).drop 1).takeWhile (· ≠ '/')).reverse⟩

/-! ### Text extraction (`extractUserText`) -/

/-- The fold step over the content blocks of a user entry: mirrors the
`for (const block of content)` loop in `extractUserText`.  A raw string block
is pushed as is; a `text` block with truthy `text` is trimmed, dropped when it
starts with one of the four hard-coded prefixes, and pushed when the trimmed
text is non-empty. -/
def pushUserBlock (acc : List String) (b : CBlock) : List String :=
  match b with
  | .str s => acc ++ [s]
  | .obj btype btext _ _ =>
    if btype = "text" ∧ btext ≠ "" then
      let text := jsTrim btext
      if jsStartsWith text "<system" then acc
      else if jsStartsWith text "<local-command" then acc
      else if jsStartsWith text "<command-name>" then acc
      else if jsStartsWith text "[Request interrupted" then acc
      else if text ≠ "" then acc ++ [text] else acc
    else acc

/-- Embedding of `extractUserText(entry)`: extract meaningful user text from a user entry,
returning `none` for `null`. -/
def extractUserText (entry : TranscriptEntry) : Option String :=
  match entry.message with
  | none => none
  | some msg =>
    match msg.content with
    | .str content =>
      if jsStartsWith content "<system" then none
      else if jsStartsWith content "<local-command" then none
      else if jsTrim content = "" then none else some (jsTrim content)
    | .blocks bs =>
      let textBlocks := bs.foldl pushUserBlock []
      let joined := jsTrim (jsJoin "\n" textBlocks)
      if joined = "" then none else some joined

/-! ### Turn reconstruction (`parseTranscript` main loop) -/

/-- The effect of one assistant entry on the in-flight turn: record model and
first response timestamp, then fold over the content blocks collecting text
blocks with non-blank text and tool_use blocks with truthy names. -/
def applyAssistant (c : ParsedTurn) (ts : String) (msg : Message) : ParsedTurn :=
  let c := if msg.model ≠ "" then { c with model := msg.model } else c
  let c := if c.assistantAt = "" then { c with assistantAt := ts } else c
  match msg.content with
  | .str _ => c
  | .blocks bs =>
    bs.foldl (fun c b =>
      match b with
      | .str _ => c
      | .obj btype btext bname bbid =>
        if btype = "text" ∧ jsTrim btext ≠ "" then
          { c with assistantTexts := c.assistantTexts ++ [btext] }
        else if btype = "tool_use" ∧ bname ≠ "" then
          { c with assistantTools := c.assistantTools ++ [⟨bname, bbid⟩] }
        else c) c

/-- A fresh in-flight turn, as created when a user entry with surviving text
is seen (`turns.length + 1` is passed in by the caller). -/
def newTurn (n : Nat) (txt ts : String) : ParsedTurn :=
  { turnNumber := n, userPrompt := txt, userPromptAt := ts,
    assistantTexts := [], assistantTools := [], assistantAt := "", model := "" }

/-- The entry walk of `parseTranscript`: `turns` is the list of closed turns,
`cur` the in-flight turn. -/
def buildTurnsAux (entries : List TranscriptEntry) (turns : List ParsedTurn)
    (cur : Option ParsedTurn) : List ParsedTurn :=
  match entries with
  | [] =>
    match cur with
    | some c => turns ++ [c]
    | none => turns
  | e :: rest =>
    if e.etype = "user" then
      match extractUserText e with
      | some txt =>
        let turns' := match cur with
          | some c => turns ++ [c]
          | none => turns
        buildTurnsAux rest turns' (some (newTurn (turns'.length + 1) txt e.timestamp))
      | none => buildTurnsAux rest turns cur
    else if e.etype = "assistant" then
      match cur, e.message with
      | some c, some msg => buildTurnsAux rest turns (some (applyAssistant c e.timestamp msg))
      | _, _ => buildTurnsAux rest turns cur
    else buildTurnsAux rest turns cur

/-- The turn list produced by the `for (const entry of entries)` loop of
`parseTranscript`, including the final `if (currentTurn) turns.push(...)`. -/
def buildTurns (entries : List TranscriptEntry) : List ParsedTurn :=
  buildTurnsAux entries [] none

/-- Embedding of `parseTranscript(jsonlPath)`: `none` input stands for an unreadable file
(the `catch` branch).  Returns the parsed session (or `none`) and the number
of bytes read. -/
def parseTranscript (file : Option RawFile) (jsonlPath : String) :
    Option ParsedSession × Nat :=
  match file with
  | none => (none, 0)
  | some f =>
    let totalBytes := f.byteLen
    let entries := f.entries
    if entries.isEmpty then (none, totalBytes)
    else
      match entries.find? (fun e => e.sessionId ≠ "") with
      | none => (none, totalBytes)
      | some firstEntry =>
        let turns := buildTurns entries
        let cwdEntry := entries.find? (fun e => e.cwd ≠ "")
        let versionEntry := entries.find? (fun e => e.version ≠ "")
        let branchEntry := entries.find? (fun e => e.gitBranch ≠ "")
        let lastTs := (entries.getLast?.map (·.timestamp)).getD ""
        let session : ParsedSession :=
          { id := firstEntry.sessionId
            projectPath := match cwdEntry with
              | some e => e.cwd
              | none => "unknown"
            projectHash := parentDirName jsonlPath
            jsonlPath := jsonlPath
            startedAt := firstEntry.timestamp
            lastActivityAt := lastTs
            version := match versionEntry with
              | some e => e.version
              | none => ""
            gitBranch := match branchEntry with
              | some e => e.gitBranch
              | none => ""
            turns := turns }
        (some session, totalBytes)

/-! ### Turn numbering (claim C2) -/

/-- A turn list is correctly numbered when its turn numbers are exactly
`1, 2, ..., n` in order. -/
def numbered (l : List ParsedTurn) : Prop :=
  l.map (·.turnNumber) = List.range' 1 l.length

theorem numbered_nil : numbered [] := rfl

theorem numbered_append_one {l : List ParsedTurn} {c : ParsedTurn}
    (hl : numbered l) (hc : c.turnNumber = l.length + 1) :
    numbered (l ++ [c]) := by
  unfold numbered at *
  rw [List.map_append, List.length_append, hl]
  simp [List.range'_concat, hc]
  omega

theorem applyAssistant_turnNumber (c : ParsedTurn) (ts : String) (msg : Message) :
    (applyAssistant c ts msg).turnNumber = c.turnNumber := by
  have step : ∀ (bs : List CBlock) (d : ParsedTurn),
      (bs.foldl (fun c b =>
        match b with
        | .str _ => c
        | .obj btype btext bname bbid =>
          if btype = "text" ∧ jsTrim btext ≠ "" then
            { c with assistantTexts := c.assistantTexts ++ [btext] }
          else if btype = "tool_use" ∧ bname ≠ "" then
            { c with assistantTools := c.assistantTools ++ [⟨bname, bbid⟩] }
          else c) d).turnNumber = d.turnNumber := by
    intro bs
    induction bs with
    | nil => intro d; rfl
    | cons b rest ih =>
      intro d
      cases b with
      | str s => exact ih d
      | obj btype btext bname bbid =>
        simp only [List.foldl_cons]
        rw [ih]
        split
        · rfl
        · split <;> rfl
  obtain ⟨mc, mmodel⟩ := msg
  cases mc with
  | str s =>
    unfold applyAssistant
    dsimp only
    split_ifs <;> rfl
  | blocks bs =>
    unfold applyAssistant
    dsimp only
    split_ifs <;> rw [step]

theorem buildTurnsAux_numbered :
    ∀ (entries : List TranscriptEntry) (turns : List ParsedTurn)
      (cur : Option ParsedTurn),
      numbered turns →
      (∀ c, cur = some c → c.turnNumber = turns.length + 1) →
      numbered (buildTurnsAux entries turns cur) := by
  intro entries
  induction entries with
  | nil =>
    intro turns cur ht hc
    unfold buildTurnsAux
    cases cur with
    | none => exact ht
    | some c => exact numbered_append_one ht (hc c rfl)
  | cons e rest ih =>
    intro turns cur ht hc
    unfold buildTurnsAux
    by_cases hu : e.etype = "user"
    · simp only [hu, if_true]
      cases hx : extractUserText e with
      | some txt =>
        cases cur with
        | none =>
          exact ih _ _ ht (by intro c h; cases h; rfl)
        | some c =>
          exact ih _ _ (numbered_append_one ht (hc c rfl))
            (by intro c' h; cases h; rfl)
      | none => exact ih _ _ ht hc
    · simp only [hu, if_false]
      by_cases ha : e.etype = "assistant"
      · simp only [ha, if_true]
        cases cur with
        | none =>
          cases e.message with
          | none => exact ih _ _ ht hc
          | some m => exact ih _ _ ht hc
        | some c =>
          cases e.message with
          | none => exact ih _ _ ht hc
          | some m =>
            refine ih _ _ ht ?_
            intro c' h
            cases h
            rw [applyAssistant_turnNumber]
            exact hc c rfl
      · simp only [ha, if_false]
        exact ih _ _ ht hc

theorem buildTurns_numbered (entries : List TranscriptEntry) :
    numbered (buildTurns entries) :=
  buildTurnsAux_numbered entries [] none numbered_nil (by intro c h; cases h)

/-- Helper: any session produced by `parseTranscript` has turn numbers
`1, 2, ..., n` in order. -/
theorem parse_turns_numbered
    (file : Option RawFile) (path : String) (s : ParsedSession)
    (h : (parseTranscript file path).1 = some s) :
    s.turns.map (·.turnNumber) = List.range' 1 s.turns.length := by
  have hs : s.turns = buildTurns ((file.map RawFile.entries).getD []) := by
    cases file with
    | none => simp [parseTranscript] at h
    | some f =>
      unfold parseTranscript at h
      dsimp only at h
      split at h
      · exact absurd h (by simp)
      · split at h
        · exact absurd h (by simp)
        · simp only [Option.some.injEq] at h
          rw [← h]
          rfl
  rw [hs]
  exact buildTurns_numbered _

/-- C2: for every transcript input, the turn numbers of the turns produced by
`parseTranscript` are exactly `1, 2, ..., n` in order — contiguous starting
at 1, with no gaps and no duplicates. -/
theorem parseTranscript_turnNumbers_contiguous
    (file : Option RawFile) (path : String) (s : ParsedSession)
    (h : (parseTranscript file path).1 = some s) :
    s.turns.map (·.turnNumber) = List.range' 1 s.turns.length :=
  parse_turns_numbered file path s h

/-- A placeholder session used only to destructure parse results in
closed-form witnesses. -/
def noSession : ParsedSession :=
  { id := "", projectPath := "", projectHash := "", jsonlPath := "",
    startedAt := "", lastActivityAt := "", version := "", gitBranch := "",
    turns := [] }

/-- A two-prompt transcript used as concrete input for witnesses. -/
def witFile : RawFile :=
  { entries :=
      [ { etype := "user", timestamp := "t1", sessionId := "sess1",
          cwd := "/proj", version := "1.0", gitBranch := "main",
          message := some { content := .str "fix the login bug", model := "" } },
        { etype := "assistant", timestamp := "t2", sessionId := "sess1",
          cwd := "", version := "", gitBranch := "",
          message := some { content := MsgContent.blocks [.obj "text" "Sure." "" "", .obj "tool_use" "" "Read" "id1", .obj "tool_use" "" "Edit" "id2"], model := "claude" } },
        { etype := "user", timestamp := "t3", sessionId := "sess1",
          cwd := "", version := "", gitBranch := "",
          message := some { content := .str "now run the tests", model := "" } } ]
    byteLen := 500 }

/-- The session parsed from `witFile`. -/
def witSession : ParsedSession :=
  ((parseTranscript (some witFile) "/projhash/sess1.jsonl").1).getD noSession

theorem parseTranscript_turnNumbers_contiguous_witness :
    witSession.turns.map (·.turnNumber) = List.range' 1 witSession.turns.length :=
  parseTranscript_turnNumbers_contiguous (some witFile) "/projhash/sess1.jsonl"
    witSession (by decide)

/-! ### Null-session conditions (claim C4) -/

/-- The number of bytes `parseTranscript` reports: zero for an unreadable
file, the full byte length otherwise. -/
def bytesOf (file : Option RawFile) : Nat :=
  match file with
  | none => 0
  | some f => f.byteLen

/-- The entries of a possibly-unreadable file. -/
def entriesOf (file : Option RawFile) : List TranscriptEntry :=
  (file.map RawFile.entries).getD []

/-- C4 (amended): `parseTranscript` returns a `none` session exactly when the
file is unreadable or no parsed line carries a session identifier; a readable
file with a session identifier but no extractable turns still yields a
non-`none` session (with an empty turn list).  The reported byte count is 0
for an unreadable file and the full byte length otherwise. -/
theorem parseTranscript_none_iff (file : Option RawFile) (path : String) :
    ((parseTranscript file path).1 = none ↔
      (file = none ∨ ∀ e ∈ entriesOf file, e.sessionId = "")) ∧
    (parseTranscript file path).2 = bytesOf file := by
  cases file with
  | none => simp [parseTranscript, bytesOf, entriesOf]
  | some f =>
    have hent : entriesOf (some f) = f.entries := rfl
    have hbytes : bytesOf (some f) = f.byteLen := rfl
    rw [hent, hbytes]
    unfold parseTranscript
    dsimp only
    by_cases he : f.entries.isEmpty = true
    · rw [if_pos he]
      refine ⟨⟨fun _ => Or.inr fun e hmem => ?_, fun _ => rfl⟩, rfl⟩
      rw [List.isEmpty_iff.mp he] at hmem
      cases hmem
    · rw [if_neg he]
      cases hf : f.entries.find? (fun e => e.sessionId ≠ "") with
      | none =>
        refine ⟨⟨fun _ => Or.inr fun e hmem => ?_, fun _ => rfl⟩, rfl⟩
        have := List.find?_eq_none.mp hf e hmem
        simpa using this
      | some fe =>
        refine ⟨⟨fun hcontr => Option.noConfusion hcontr, fun hor => ?_⟩, rfl⟩
        rcases hor with h | hall
        · cases h
        · have hmem := List.find?_some hf
          have hin := List.mem_of_find?_eq_some hf
          have := hall fe hin
          simp [this] at hmem

/-- A readable one-line file whose single entry carries a session id but
allows no turn extraction. -/
def c4File : RawFile :=
  { entries := [ { etype := "system", timestamp := "t0", sessionId := "sess9",
                   cwd := "", version := "", gitBranch := "", message := none } ]
    byteLen := 42 }

/-- C4 counterexample: the claim says the session is `null` exactly when the
file is unreadable, carries no session identifier, or no turns can be
extracted; but `c4File` has a session identifier and no extractable turns,
and `parseTranscript` still returns a non-null session. -/
theorem parseTranscript_none_iff_counterexample :
    ¬ (∀ (file : Option RawFile) (path : String),
        (parseTranscript file path).1 = none ↔
          (file = none ∨ (∀ e ∈ entriesOf file, e.sessionId = "") ∨
            buildTurns (entriesOf file) = [])) := by
  intro h
  have h2 := (h (some c4File) "p/h/s.jsonl").mpr (Or.inr (Or.inr (by decide)))
  exact absurd h2 (by decide)

theorem parseTranscript_none_iff_witness :
    (parseTranscript (some c4File) "p/h/s.jsonl").2 = bytesOf (some c4File) :=
  (parseTranscript_none_iff (some c4File) "p/h/s.jsonl").2

/-! ### Synthetic-marker filtering in text extraction (claim C5) -/

/-- The spec's list of synthetic/system markers whose presence at the start
of a human prompt is claimed to suppress the prompt: system reminders,
local-command envelopes, task notifications, slash-command echoes, teammate
relay messages, interrupted-request markers, and continuation-of-previous-
session banners.  (The heading-plus-subheading skill-template rule is a shape
test, not a prefix, and is not needed for the counterexample.)  This list
follows the spec's words; the parser's own filter is in `extractUserText`. -/
def specSyntheticMarkers : List String :=
  [ "<system-reminder>", "<local-command", "<task-notification>",
    "<command-name>", "<teammate-message", "[Request interrupted",
    "This session is being continued from a previous conversation" ]

/-- A content block that the extractor is guaranteed to drop: a text block
whose trimmed text begins with one of the four hard-coded prefixes. -/
def filteredBlock (b : CBlock) : Prop :=
  ∃ btype btext bname bbid, b = .obj btype btext bname bbid ∧
    btype = "text" ∧
    (jsStartsWith (jsTrim btext) "<system" = true ∨
     jsStartsWith (jsTrim btext) "<local-command" = true ∨
     jsStartsWith (jsTrim btext) "<command-name>" = true ∨
     jsStartsWith (jsTrim btext) "[Request interrupted" = true)

theorem pushUserBlock_filtered (acc : List String) (b : CBlock)
    (h : filteredBlock b) :
    pushUserBlock acc b = acc := by
  obtain ⟨btype, btext, bname, bbid, hb, hty, hpre⟩ := h
  subst hb
  subst hty
  unfold pushUserBlock
  by_cases hne : btext = ""
  · subst hne
    simp
  · simp only [hne, ne_eq, not_false_iff, and_true, if_pos, true_and]
    rcases hpre with h1 | h1 | h1 | h1 <;> simp [h1]

theorem foldl_pushUserBlock_filtered :
    ∀ (bs : List CBlock), (∀ b ∈ bs, filteredBlock b) →
      ∀ acc, bs.foldl pushUserBlock acc = acc := by
  intro bs
  induction bs with
  | nil => intro _ acc; rfl
  | cons b rest ih =>
    intro hall acc
    simp only [List.foldl_cons, pushUserBlock_filtered acc b (hall b (by simp))]
    exact ih (fun x hx => hall x (by simp [hx])) acc

/-- C5 (amended): the parser's text extraction drops a plain-string human
prompt that begins (unrimmed) with `<system` or `<local-command`, and drops a
structured prompt all of whose blocks are text blocks whose trimmed text
begins with `<system`, `<local-command`, `<command-name>` or
`[Request interrupted`.  The remaining spec-listed markers (task
notifications, teammate relays, skill templates, continuation banners) are
not filtered by the parser. -/
theorem extractUserText_filters (e : TranscriptEntry) (msg : Message)
    (hm : e.message = some msg) :
    (∀ s, msg.content = .str s →
      (jsStartsWith s "<system" = true ∨ jsStartsWith s "<local-command" = true) →
      extractUserText e = none) ∧
    (∀ bs, msg.content = .blocks bs →
      (∀ b ∈ bs, filteredBlock b) →
      extractUserText e = none) := by
  constructor
  · intro s hc hpre
    unfold extractUserText
    rw [hm]
    dsimp only
    rw [hc]
    rcases hpre with h1 | h1
    · simp [h1]
    · simp [h1]
  · intro bs hc hall
    unfold extractUserText
    rw [hm]
    dsimp only
    rw [hc]
    have hfold := foldl_pushUserBlock_filtered bs hall []
    dsimp only
    rw [hfold]
    rfl

/-- A human prompt whose string payload begins with the teammate-relay
marker. -/
def c5TeammateEntry : TranscriptEntry :=
  { etype := "user", timestamp := "t1", sessionId := "sess5",
    cwd := "", version := "", gitBranch := "",
    message := some { content := .str "<teammate-message from=bob>merge please</teammate-message>", model := "" } }

/-- C5 counterexample: the claim says extraction yields no text whenever the
content begins with any listed synthetic marker; but a prompt beginning with
the teammate-relay marker is extracted verbatim by the parser. -/
theorem extractUserText_filters_counterexample :
    ¬ (∀ (e : TranscriptEntry) (msg : Message) (s : String),
        e.message = some msg → msg.content = .str s →
        (∃ m ∈ specSyntheticMarkers, jsStartsWith s m = true) →
        extractUserText e = none) := by
  intro h
  have h2 := h c5TeammateEntry
    { content := .str "<teammate-message from=bob>merge please</teammate-message>", model := "" }
    "<teammate-message from=bob>merge please</teammate-message>"
    rfl rfl ⟨"<teammate-message", by decide, by decide⟩
  exact absurd h2 (by decide)

/-- A human prompt whose string payload is a system reminder. -/
def c5SysEntry : TranscriptEntry :=
  { etype := "user", timestamp := "t1", sessionId := "sess5",
    cwd := "", version := "", gitBranch := "",
    message := some { content := .str "<system-reminder>do X</system-reminder>", model := "" } }

/-- A human prompt whose only block is a slash-command echo. -/
def c5BlockEntry : TranscriptEntry :=
  { etype := "user", timestamp := "t1", sessionId := "sess5",
    cwd := "", version := "", gitBranch := "",
    message := some { content := MsgContent.blocks [.obj "text" "<command-name>/clear</command-name>" "" ""], model := "" } }

theorem extractUserText_filters_witness :
    extractUserText c5SysEntry = none ∧ extractUserText c5BlockEntry = none := by
  constructor
  · exact (extractUserText_filters c5SysEntry
      { content := .str "<system-reminder>do X</system-reminder>", model := "" } rfl).1
      "<system-reminder>do X</system-reminder>" rfl (Or.inl (by decide))
  · refine (extractUserText_filters c5BlockEntry
      { content := MsgContent.blocks [.obj "text" "<command-name>/clear</command-name>" "" ""], model := "" } rfl).2
      [.obj "text" "<command-name>/clear</command-name>" "" ""] rfl ?_
    intro b hb
    simp only [List.mem_singleton] at hb
    subst hb
    exact ⟨"text", "<command-name>/clear</command-name>", "", "", rfl, rfl,
      Or.inr (Or.inr (Or.inl (by decide)))⟩

/-! ### Record store (sessions and conversation_turns tables) -/

/-- One row of the `sessions` table.  `project_path`, `project_hash`,
`jsonl_path`, `last_activity_at`, `version`, `git_branch` are nullable in the
schema; `""` stands for `NULL`. -/
structure SessionRow where
  id : String
  project_path : String
  project_hash : String
  jsonl_path : String
  started_at : String
  last_activity_at : String
  version : String
  git_branch : String
  turn_count : Nat
  last_synced_bytes : Nat
  deriving Repr, DecidableEq

/-- One row of the `conversation_turns` table.  The `AUTOINCREMENT` surrogate
`id` is never read by the code under verification and is omitted;
`assistant_tools` holds the JSON-decoded tool-name array (`none` = `NULL`),
and `assistant_text`/`assistant_at`/`model` use `""` for `NULL`. -/
structure TurnRow where
  session_id : String
  turn_number : Nat
  user_prompt : String
  user_prompt_at : String
  assistant_text : String
  assistant_tools : Option (List String)
  assistant_at : String
  model : String
  deriving Repr, DecidableEq

/-- The record store: the two logical tables. -/
structure DBState where
  sessions : List SessionRow
  turns : List TurnRow
  deriving Repr, DecidableEq

/-- The empty record store. -/
def emptyDB : DBState := { sessions := [], turns := [] }

/-- SQL `COALESCE(a, b)` under the `""`-for-`NULL` convention. -/
def coalesce (a b : String) : String :=
  if a = "" then b else a

/-- The `upsertSession` prepared statement: insert the session row, or on an
`id` conflict update `last_activity_at`, `turn_count`, `last_synced_bytes`
and fill `version`/`git_branch` only if not already set. -/
def upsertSession (db : DBState) (s : ParsedSession) (turnCount bytes : Nat) :
    DBState :=
  if db.sessions.any (fun r => r.id == s.id) then
    { db with sessions := db.sessions.map (fun r =>
        if r.id == s.id then
          { r with last_activity_at := s.lastActivityAt,
                   version := coalesce s.version r.version,
                   git_branch := coalesce s.gitBranch r.git_branch,
                   turn_count := turnCount,
                   last_synced_bytes := bytes }
        else r) }
  else
    { db with sessions := db.sessions ++
        [ { id := s.id, project_path := s.projectPath,
            project_hash := s.projectHash, jsonl_path := s.jsonlPath,
            started_at := s.startedAt, last_activity_at := s.lastActivityAt,
            version := s.version, git_branch := s.gitBranch,
            turn_count := turnCount, last_synced_bytes := bytes } ] }

/-- Embedding of `turn.assistantTexts.join("\n") || null` under the `""`-for-`NULL`
convention. -/
def assistantTextOf (t : ParsedTurn) : String :=
  jsJoin "\n" t.assistantTexts

/-- The JSON tool-name array stored in `assistant_tools`: `null` when the
turn used no tools. -/
def toolsJsonOf (t : ParsedTurn) : Option (List String) :=
  if t.assistantTools.length > 0 then some (t.assistantTools.map (·.name))
  else none

/-- The `upsertTurn` prepared statement: insert the turn row, or on a
`(session_id, turn_number)` conflict update only `assistant_text`,
`assistant_tools`, `assistant_at` and `model` (the latter with `COALESCE`). -/
def upsertTurn (db : DBState) (sid : String) (t : ParsedTurn) : DBState :=
  if db.turns.any (fun r => r.session_id == sid ∧ r.turn_number == t.turnNumber) then
    { db with turns := db.turns.map (fun r =>
        if r.session_id == sid ∧ r.turn_number == t.turnNumber then
          { r with assistant_text := assistantTextOf t,
                   assistant_tools := toolsJsonOf t,
                   assistant_at := t.assistantAt,
                   model := coalesce t.model r.model }
        else r) }
  else
    { db with turns := db.turns ++
        [ { session_id := sid, turn_number := t.turnNumber,
            user_prompt := t.userPrompt, user_prompt_at := t.userPromptAt,
            assistant_text := assistantTextOf t,
            assistant_tools := toolsJsonOf t,
            assistant_at := t.assistantAt, model := t.model } ] }

/-- The `getSessionSyncState` prepared statement: look up a session row by
primary key. -/
def lookupSession (db : DBState) (sid : String) : Option SessionRow :=
  db.sessions.find? (fun r => r.id == sid)

/-- A `session_updated` change-event. -/
structure SyncEvent where
  sessionId : String
  turnCount : Nat
  deriving Repr, DecidableEq

/-- The list of writes executed inside the `syncTransaction`: the session
upsert followed by one turn upsert per parsed turn, in turn order. -/
def syncWrites (s : ParsedSession) (bytes : Nat) : List (DBState → DBState) :=
  (fun db => upsertSession db s s.turns.length bytes) ::
    s.turns.map (fun t => (fun db => upsertTurn db s.id t))

/-- The work-skipping test of `syncFile`: a session row exists and its
recorded cursor is at least the number of bytes just read. -/
def skipSync (db : DBState) (sid : String) (bytesRead : Nat) : Bool :=
  match lookupSession db sid with
  | some row => bytesRead ≤ row.last_synced_bytes
  | none => false

/-- Embedding of `syncFile(jsonlPath)`: parse the file; return no events when there is no
session or no turns; skip when the byte length has not grown past the
recorded cursor; otherwise run the transaction and emit one
`session_updated` event. -/
def syncFile (db : DBState) (file : Option RawFile) (path : String) :
    DBState × List SyncEvent :=
  match parseTranscript file path with
  | (none, _) => (db, [])
  | (some s, bytesRead) =>
    if s.turns.isEmpty then (db, [])
    else if skipSync db s.id bytesRead then (db, [])
    else
      let db' := (syncWrites s bytesRead).foldl (fun d w => w d) db
      (db', [ { sessionId := s.id, turnCount := s.turns.length } ])

/-! ### Cursor-based work skipping (claim C3) -/

/-- C3: if the parsed file's byte length is at most the sync cursor recorded
for its session, `syncFile` returns no change-events and leaves the record
store unchanged. -/
theorem syncFile_skip_unchanged (db : DBState) (file : Option RawFile)
    (path : String) (s : ParsedSession) (row : SessionRow)
    (hparse : (parseTranscript file path).1 = some s)
    (hrow : lookupSession db s.id = some row)
    (hbytes : (parseTranscript file path).2 ≤ row.last_synced_bytes) :
    syncFile db file path = (db, []) := by
  unfold syncFile
  cases hp : parseTranscript file path with
  | mk fst snd =>
    rw [hp] at hparse hbytes
    dsimp only at hparse hbytes
    subst hparse
    dsimp only
    by_cases ht : s.turns.isEmpty = true
    · rw [if_pos ht]
    · rw [if_neg ht]
      have hskip : skipSync db s.id snd = true := by
        unfold skipSync
        rw [hrow]
        simpa using hbytes
      rw [if_pos hskip]

/-- A store holding the session of `witFile` with its cursor already at the
file's byte length. -/
def c3DB : DBState :=
  (syncFile emptyDB (some witFile) "/projhash/sess1.jsonl").1

theorem syncFile_skip_unchanged_witness :
    syncFile c3DB (some witFile) "/projhash/sess1.jsonl" = (c3DB, []) :=
  syncFile_skip_unchanged c3DB (some witFile) "/projhash/sess1.jsonl"
    witSession ((lookupSession c3DB witSession.id).getD
      { id := "", project_path := "", project_hash := "", jsonl_path := "",
        started_at := "", last_activity_at := "", version := "",
        git_branch := "", turn_count := 0, last_synced_bytes := 0 })
    (by decide) (by decide) (by decide)

/-! ### Re-sync leaves prompt columns unchanged (claim C10) -/

/-- States that `b` extends `a` without touching any existing row's key or prompt
columns: every row of `a.turns` is still at its index in `b.turns` with the
same `session_id`, `turn_number`, `user_prompt` and `user_prompt_at` (only
`assistant_text`, `assistant_tools`, `assistant_at`, `model` may differ). -/
def turnsFrame (a b : DBState) : Prop :=
  a.turns.length ≤ b.turns.length ∧
  ∀ i (h : i < a.turns.length) (h2 : i < b.turns.length),
    (b.turns.get ⟨i, h2⟩).session_id = (a.turns.get ⟨i, h⟩).session_id ∧
    (b.turns.get ⟨i, h2⟩).turn_number = (a.turns.get ⟨i, h⟩).turn_number ∧
    (b.turns.get ⟨i, h2⟩).user_prompt = (a.turns.get ⟨i, h⟩).user_prompt ∧
    (b.turns.get ⟨i, h2⟩).user_prompt_at = (a.turns.get ⟨i, h⟩).user_prompt_at

theorem turnsFrame_refl (a : DBState) : turnsFrame a a :=
  ⟨le_refl _, fun _ _ _ => ⟨rfl, rfl, rfl, rfl⟩⟩

theorem turnsFrame_trans {a b c : DBState}
    (hab : turnsFrame a b) (hbc : turnsFrame b c) : turnsFrame a c := by
  refine ⟨le_trans hab.1 hbc.1, fun i h h2 => ?_⟩
  have hb : i < b.turns.length := lt_of_lt_of_le h hab.1
  obtain ⟨e1, e2, e3, e4⟩ := hab.2 i h hb
  obtain ⟨f1, f2, f3, f4⟩ := hbc.2 i hb h2
  exact ⟨f1.trans e1, f2.trans e2, f3.trans e3, f4.trans e4⟩

theorem upsertSession_turns (db : DBState) (s : ParsedSession) (a b : Nat) :
    (upsertSession db s a b).turns = db.turns := by
  unfold upsertSession
  split <;> rfl

theorem upsertSession_turnsFrame (db : DBState) (s : ParsedSession) (a b : Nat) :
    turnsFrame db (upsertSession db s a b) := by
  have h := upsertSession_turns db s a b
  refine ⟨le_of_eq (by rw [h]), fun i hlt h2 => ?_⟩
  simp [List.get_eq_getElem, h]

theorem upsertTurn_turnsFrame (db : DBState) (sid : String) (t : ParsedTurn) :
    turnsFrame db (upsertTurn db sid t) := by
  unfold upsertTurn
  split
  · refine ⟨le_of_eq (by simp), fun i h h2 => ?_⟩
    simp only [List.get_eq_getElem, List.getElem_map]
    split
    · simp
    · simp
  · refine ⟨by simp, fun i h h2 => ?_⟩
    simp [List.get_eq_getElem, List.getElem_append_left h]

/-- A store write that never touches existing keys or prompt columns. -/
def framePreserving (w : DBState → DBState) : Prop :=
  ∀ db, turnsFrame db (w db)

theorem foldl_framePreserving :
    ∀ (ws : List (DBState → DBState)), (∀ w ∈ ws, framePreserving w) →
      ∀ db, turnsFrame db (ws.foldl (fun d w => w d) db) := by
  intro ws
  induction ws with
  | nil => intro _ db; exact turnsFrame_refl db
  | cons w rest ih =>
    intro hall db
    simp only [List.foldl_cons]
    exact turnsFrame_trans (hall w (by simp) db)
      (ih (fun x hx => hall x (by simp [hx])) (w db))

theorem syncWrites_framePreserving (s : ParsedSession) (bytes : Nat) :
    ∀ w ∈ syncWrites s bytes, framePreserving w := by
  intro w hw
  unfold syncWrites at hw
  rcases List.mem_cons.mp hw with h | h
  · subst h
    intro db
    exact upsertSession_turnsFrame db s s.turns.length bytes
  · obtain ⟨t, _, ht⟩ := List.mem_map.mp h
    subst ht
    intro db
    exact upsertTurn_turnsFrame db s.id t

/-- C10: a later `syncFile` that upserts an already-persisted
`(session_id, turn_number)` key leaves that row's `user_prompt` and
`user_prompt_at` (and its key) unchanged: every pre-existing turn row keeps
its position, key and prompt columns, so only the assistant columns and
`model` can be modified by a re-sync conflict update. -/
theorem syncFile_preserves_prompts (db : DBState) (file : Option RawFile)
    (path : String) : turnsFrame db (syncFile db file path).1 := by
  unfold syncFile
  cases hp : parseTranscript file path with
  | mk o snd =>
    cases o with
    | none => exact turnsFrame_refl db
    | some s =>
      dsimp only
      by_cases ht : s.turns.isEmpty = true
      · rw [if_pos ht]
        exact turnsFrame_refl db
      · rw [if_neg ht]
        split
        · exact turnsFrame_refl db
        · exact foldl_framePreserving _ (syncWrites_framePreserving s snd) db

/-- An extension of `witFile` with a further assistant entry for the second
turn and a larger byte length, forcing a genuine re-sync over `c3DB`. -/
def witFileB : RawFile :=
  { entries := witFile.entries ++
      [ { etype := "assistant", timestamp := "t4", sessionId := "sess1",
          cwd := "", version := "", gitBranch := "",
          message := some { content := MsgContent.blocks [.obj "text" "Done." "" "", .obj "tool_use" "" "Bash" "id3"], model := "claude" } } ]
    byteLen := 800 }

theorem syncFile_preserves_prompts_witness :
    (((syncFile c3DB (some witFileB) "/projhash/sess1.jsonl").1.turns.get
        ⟨0, by decide⟩).user_prompt = ((c3DB.turns.get ⟨0, by decide⟩).user_prompt) ∧
     ((syncFile c3DB (some witFileB) "/projhash/sess1.jsonl").1.turns.get
        ⟨0, by decide⟩).user_prompt_at = ((c3DB.turns.get ⟨0, by decide⟩).user_prompt_at)) := by
  have h := (syncFile_preserves_prompts c3DB (some witFileB)
    "/projhash/sess1.jsonl").2 0 (by decide) (by decide)
  exact ⟨h.2.2.1, h.2.2.2⟩

/-! ### Turn-count invariant (claim C1) -/

/-- Some persisted turn row carries the key `(sid, k)`. -/
def hasTurnKey (db : DBState) (sid : String) (k : Nat) : Prop :=
  ∃ r ∈ db.turns, r.session_id = sid ∧ r.turn_number = k

/-- The structural store invariant maintained by the sync engine: session ids
are unique, turn keys are unique, the turn keys present for a session are
exactly `(id, 1) .. (id, turn_count)`, and every turn row references an
existing session (the schema's foreign key). -/
def StoreInv (db : DBState) : Prop :=
  db.sessions.Pairwise (fun a b => a.id ≠ b.id) ∧
  db.turns.Pairwise (fun a b =>
    ¬(a.session_id = b.session_id ∧ a.turn_number = b.turn_number)) ∧
  (∀ srow ∈ db.sessions, ∀ k,
    hasTurnKey db srow.id k ↔ (1 ≤ k ∧ k ≤ srow.turn_count)) ∧
  (∀ t ∈ db.turns, ∃ srow ∈ db.sessions, srow.id = t.session_id)

theorem storeInv_empty : StoreInv emptyDB := by
  refine ⟨List.Pairwise.nil, List.Pairwise.nil, ?_, ?_⟩
  · intro srow hs
    cases hs
  · intro t ht
    cases ht

/-- Under the store invariant, every session row's `turn_count` equals the
number of persisted turn rows for its id. -/
theorem inv_count {db : DBState} (hinv : StoreInv db) :
    ∀ srow ∈ db.sessions,
      (db.turns.filter (fun t => t.session_id == srow.id)).length =
        srow.turn_count := by
  intro srow hs
  have hsub : List.Sublist (db.turns.filter (fun t => t.session_id == srow.id))
      db.turns :=
    List.filter_sublist _
  have hpw := hinv.2.1.sublist hsub
  have hsid : ∀ a ∈ db.turns.filter (fun t => t.session_id == srow.id),
      a.session_id = srow.id := by
    intro a ha
    have := (List.mem_filter.mp ha).2
    simpa using this
  have hnums : ((db.turns.filter (fun t => t.session_id == srow.id)).map
      (·.turn_number)).Nodup := by
    refine List.Pairwise.map _ (fun a b h => h) ?_
    refine List.Pairwise.imp_of_mem ?_ hpw
    intro a b ha hb hr
    intro hk
    exact hr ⟨(hsid a ha).trans (hsid b hb).symm, hk⟩
  have hmemiff : ∀ k,
      k ∈ (db.turns.filter (fun t => t.session_id == srow.id)).map
        (·.turn_number) ↔ (1 ≤ k ∧ k ≤ srow.turn_count) := by
    intro k
    rw [List.mem_map]
    constructor
    · rintro ⟨r, hr, hk⟩
      exact (hinv.2.2.1 srow hs k).mp
        ⟨r, (List.mem_filter.mp hr).1, hsid r hr, hk⟩
    · intro hk
      obtain ⟨r, hr, h1, h2⟩ := (hinv.2.2.1 srow hs k).mpr hk
      exact ⟨r, List.mem_filter.mpr ⟨hr, by simp [h1]⟩, h2⟩
  have hlen : (db.turns.filter (fun t => t.session_id == srow.id)).length =
      ((db.turns.filter (fun t => t.session_id == srow.id)).map
        (·.turn_number)).length := (List.length_map _ _).symm
  rw [hlen, ← List.toFinset_card_of_nodup hnums]
  have : ((db.turns.filter (fun t => t.session_id == srow.id)).map
      (·.turn_number)).toFinset = Finset.Icc 1 srow.turn_count := by
    ext k
    simp only [List.mem_toFinset, Finset.mem_Icc]
    exact hmemiff k
  rw [this, Nat.card_Icc]
  omega

theorem upsertTurn_sessions (db : DBState) (sid : String) (t : ParsedTurn) :
    (upsertTurn db sid t).sessions = db.sessions := by
  unfold upsertTurn
  split <;> rfl

theorem upsertSession_mem_of (db : DBState) (s : ParsedSession) (tc b : Nat)
    (r : SessionRow) (hr : r ∈ db.sessions) (hne : r.id ≠ s.id) :
    r ∈ (upsertSession db s tc b).sessions := by
  unfold upsertSession
  split
  · exact List.mem_map.mpr ⟨r, hr, by simp [hne]⟩
  · exact List.mem_append_left _ hr

theorem upsertSession_mem (db : DBState) (s : ParsedSession) (tc b : Nat)
    (r2 : SessionRow) (h : r2 ∈ (upsertSession db s tc b).sessions) :
    (r2.id = s.id ∧ r2.turn_count = tc) ∨ (r2 ∈ db.sessions ∧ r2.id ≠ s.id) := by
  unfold upsertSession at h
  split at h
  · obtain ⟨r, hr, hf⟩ := List.mem_map.mp h
    by_cases hid : r.id == s.id
    · rw [if_pos hid] at hf
      left
      rw [← hf]
      exact ⟨by simpa using hid, rfl⟩
    · rw [if_neg hid] at hf
      right
      rw [← hf]
      exact ⟨hr, by simpa using hid⟩
  · rename_i hany
    rcases List.mem_append.mp h with h2 | h2
    · right
      refine ⟨h2, ?_⟩
      intro hc
      exact hany (List.any_eq_true.mpr ⟨r2, h2, by simp [hc]⟩)
    · left
      rw [List.mem_singleton.mp h2]
      exact ⟨rfl, rfl⟩

theorem upsertSession_exists (db : DBState) (s : ParsedSession) (tc b : Nat) :
    ∃ r2 ∈ (upsertSession db s tc b).sessions, r2.id = s.id ∧ r2.turn_count = tc := by
  unfold upsertSession
  split
  · rename_i hany
    obtain ⟨r, hr, hbeq⟩ := List.any_eq_true.mp hany
    refine ⟨_, List.mem_map.mpr ⟨r, hr, rfl⟩, ?_⟩
    rw [if_pos hbeq]
    exact ⟨by simpa using hbeq, rfl⟩
  · exact ⟨_, List.mem_append_right _ (List.mem_singleton.mpr rfl), rfl, rfl⟩

theorem upsertSession_id_cover (db : DBState) (s : ParsedSession) (tc b : Nat)
    (r : SessionRow) (hr : r ∈ db.sessions) :
    ∃ r2 ∈ (upsertSession db s tc b).sessions, r2.id = r.id := by
  unfold upsertSession
  split
  · refine ⟨_, List.mem_map.mpr ⟨r, hr, rfl⟩, ?_⟩
    split <;> rfl
  · exact ⟨r, List.mem_append_left _ hr, rfl⟩

theorem upsertSession_unique (db : DBState) (s : ParsedSession) (tc b : Nat)
    (hu : db.sessions.Pairwise (fun a b => a.id ≠ b.id)) :
    (upsertSession db s tc b).sessions.Pairwise (fun a b => a.id ≠ b.id) := by
  unfold upsertSession
  split
  · refine List.Pairwise.map _ ?_ hu
    intro a c h
    have ha : (if a.id == s.id then
        { a with last_activity_at := s.lastActivityAt,
                 version := coalesce s.version a.version,
                 git_branch := coalesce s.gitBranch a.git_branch,
                 turn_count := tc, last_synced_bytes := b }
      else a).id = a.id := by split <;> rfl
    have hc : (if c.id == s.id then
        { c with last_activity_at := s.lastActivityAt,
                 version := coalesce s.version c.version,
                 git_branch := coalesce s.gitBranch c.git_branch,
                 turn_count := tc, last_synced_bytes := b }
      else c).id = c.id := by split <;> rfl
    rw [ha, hc]
    exact h
  · rename_i hany
    rw [List.pairwise_append]
    refine ⟨hu, List.pairwise_singleton _ _, ?_⟩
    intro a ha b hb
    rw [List.mem_singleton.mp hb]
    intro hc
    exact hany (List.any_eq_true.mpr ⟨a, ha, by simp [hc]⟩)

theorem upsertTurn_hasKey (db : DBState) (sid : String) (t : ParsedTurn)
    (sid2 : String) (k : Nat) :
    hasTurnKey (upsertTurn db sid t) sid2 k ↔
      (hasTurnKey db sid2 k ∨ (sid2 = sid ∧ k = t.turnNumber)) := by
  unfold upsertTurn hasTurnKey
  split
  · rename_i hany
    obtain ⟨r0, hr0, hcond⟩ := List.any_eq_true.mp hany
    have hc0 : r0.session_id = sid ∧ r0.turn_number = t.turnNumber := by
      simpa using hcond
    constructor
    · rintro ⟨r2, hr2, hkey⟩
      obtain ⟨r, hr, hf⟩ := List.mem_map.mp hr2
      have hpres : r2.session_id = r.session_id ∧ r2.turn_number = r.turn_number := by
        rw [← hf]
        split <;> exact ⟨rfl, rfl⟩
      exact Or.inl ⟨r, hr, hpres.1 ▸ hkey.1, hpres.2 ▸ hkey.2⟩
    · rintro (⟨r, hr, hkey⟩ | ⟨h1, h2⟩)
      · refine ⟨_, List.mem_map.mpr ⟨r, hr, rfl⟩, ?_⟩
        constructor
        · split <;> exact hkey.1
        · split <;> exact hkey.2
      · refine ⟨_, List.mem_map.mpr ⟨r0, hr0, rfl⟩, ?_⟩
        constructor
        · split <;> simp [hc0.1, h1]
        · split <;> simp [hc0.2, h2]
  · rename_i hany
    constructor
    · rintro ⟨r2, hr2, hkey⟩
      rcases List.mem_append.mp hr2 with h2 | h2
      · exact Or.inl ⟨r2, h2, hkey⟩
      · rw [List.mem_singleton.mp h2] at hkey
        exact Or.inr ⟨hkey.1.symm, hkey.2.symm⟩
    · rintro (⟨r, hr, hkey⟩ | ⟨h1, h2⟩)
      · exact ⟨r, List.mem_append_left _ hr, hkey⟩
      · exact ⟨_, List.mem_append_right _ (List.mem_singleton.mpr rfl),
          h1.symm, h2.symm⟩

theorem upsertTurn_keysUnique (db : DBState) (sid : String) (t : ParsedTurn)
    (hu : db.turns.Pairwise (fun a b =>
      ¬(a.session_id = b.session_id ∧ a.turn_number = b.turn_number))) :
    (upsertTurn db sid t).turns.Pairwise (fun a b =>
      ¬(a.session_id = b.session_id ∧ a.turn_number = b.turn_number)) := by
  unfold upsertTurn
  split
  · refine List.Pairwise.map _ ?_ hu
    intro a c h hk
    apply h
    have ha : ∀ (x : TurnRow), ((if x.session_id == sid ∧ x.turn_number == t.turnNumber then
        { x with assistant_text := assistantTextOf t,
                 assistant_tools := toolsJsonOf t,
                 assistant_at := t.assistantAt,
                 model := coalesce t.model x.model }
      else x) : TurnRow).session_id = x.session_id ∧
      ((if x.session_id == sid ∧ x.turn_number == t.turnNumber then
        { x with assistant_text := assistantTextOf t,
                 assistant_tools := toolsJsonOf t,
                 assistant_at := t.assistantAt,
                 model := coalesce t.model x.model }
      else x) : TurnRow).turn_number = x.turn_number := by
      intro x
      split <;> exact ⟨rfl, rfl⟩
    rw [(ha a).1, (ha a).2, (ha c).1, (ha c).2] at hk
    exact hk
  · rename_i hany
    rw [List.pairwise_append]
    refine ⟨hu, List.pairwise_singleton _ _, ?_⟩
    intro a ha b hb
    rw [List.mem_singleton.mp hb]
    intro hc
    exact hany (List.any_eq_true.mpr ⟨a, ha, by simp [hc.1, hc.2]⟩)

theorem upsertTurn_orphan (db : DBState) (sid : String) (t : ParsedTurn)
    (t2 : TurnRow) (h : t2 ∈ (upsertTurn db sid t).turns) :
    (∃ t0 ∈ db.turns, t2.session_id = t0.session_id) ∨ t2.session_id = sid := by
  unfold upsertTurn at h
  split at h
  · obtain ⟨r, hr, hf⟩ := List.mem_map.mp h
    left
    refine ⟨r, hr, ?_⟩
    rw [← hf]
    split <;> rfl
  · rcases List.mem_append.mp h with h2 | h2
    · exact Or.inl ⟨t2, h2, rfl⟩
    · right
      rw [List.mem_singleton.mp h2]

/-- The turn-upsert loop of the sync transaction. -/
def applyTurns (db : DBState) (sid : String) (ts : List ParsedTurn) : DBState :=
  ts.foldl (fun d t => upsertTurn d sid t) db

theorem applyTurns_sessions :
    ∀ (ts : List ParsedTurn) (db : DBState) (sid : String),
      (applyTurns db sid ts).sessions = db.sessions := by
  intro ts
  induction ts with
  | nil => intro db sid; rfl
  | cons t rest ih =>
    intro db sid
    unfold applyTurns
    simp only [List.foldl_cons]
    have := ih (upsertTurn db sid t) sid
    unfold applyTurns at this
    rw [this, upsertTurn_sessions]

theorem applyTurns_hasKey :
    ∀ (ts : List ParsedTurn) (db : DBState) (sid sid2 : String) (k : Nat),
      hasTurnKey (applyTurns db sid ts) sid2 k ↔
        (hasTurnKey db sid2 k ∨ (sid2 = sid ∧ k ∈ ts.map (·.turnNumber))) := by
  intro ts
  induction ts with
  | nil =>
    intro db sid sid2 k
    simp [applyTurns]
  | cons t rest ih =>
    intro db sid sid2 k
    unfold applyTurns
    simp only [List.foldl_cons]
    have h1 := ih (upsertTurn db sid t) sid sid2 k
    unfold applyTurns at h1
    rw [h1, upsertTurn_hasKey]
    simp only [List.map_cons, List.mem_cons]
    constructor
    · rintro ((h | ⟨h2, h3⟩) | ⟨h2, h3⟩)
      · exact Or.inl h
      · exact Or.inr ⟨h2, Or.inl h3⟩
      · exact Or.inr ⟨h2, Or.inr h3⟩
    · rintro (h | ⟨h2, h3 | h3⟩)
      · exact Or.inl (Or.inl h)
      · exact Or.inl (Or.inr ⟨h2, h3⟩)
      · exact Or.inr ⟨h2, h3⟩

theorem applyTurns_keysUnique :
    ∀ (ts : List ParsedTurn) (db : DBState) (sid : String),
      db.turns.Pairwise (fun a b =>
        ¬(a.session_id = b.session_id ∧ a.turn_number = b.turn_number)) →
      (applyTurns db sid ts).turns.Pairwise (fun a b =>
        ¬(a.session_id = b.session_id ∧ a.turn_number = b.turn_number)) := by
  intro ts
  induction ts with
  | nil => intro db sid h; exact h
  | cons t rest ih =>
    intro db sid h
    unfold applyTurns
    simp only [List.foldl_cons]
    exact ih (upsertTurn db sid t) sid (upsertTurn_keysUnique db sid t h)

theorem applyTurns_orphan :
    ∀ (ts : List ParsedTurn) (db : DBState) (sid : String) (t2 : TurnRow),
      t2 ∈ (applyTurns db sid ts).turns →
      (∃ t0 ∈ db.turns, t2.session_id = t0.session_id) ∨ t2.session_id = sid := by
  intro ts
  induction ts with
  | nil => intro db sid t2 h; exact Or.inl ⟨t2, h, rfl⟩
  | cons t rest ih =>
    intro db sid t2 h
    unfold applyTurns at h
    simp only [List.foldl_cons] at h
    rcases ih (upsertTurn db sid t) sid t2 h with ⟨t0, ht0, hid⟩ | h2
    · rcases upsertTurn_orphan db sid t t0 ht0 with ⟨t1, ht1, hid1⟩ | h3
      · exact Or.inl ⟨t1, ht1, hid.trans hid1⟩
      · exact Or.inr (hid.trans h3)
    · exact Or.inr h2

theorem syncWrites_foldl (s : ParsedSession) (bytes : Nat) (db : DBState) :
    (syncWrites s bytes).foldl (fun d w => w d) db =
      applyTurns (upsertSession db s s.turns.length bytes) s.id s.turns := by
  unfold syncWrites applyTurns
  simp only [List.foldl_cons, List.foldl_map]

theorem hasTurnKey_turns_eq {a b : DBState} (h : a.turns = b.turns)
    (sid : String) (k : Nat) : hasTurnKey a sid k ↔ hasTurnKey b sid k := by
  unfold hasTurnKey
  rw [h]

/-- One `syncFile` call preserves the store invariant whenever the parsed
turn count is at least the turn count already recorded for that session
(automatic for append-only transcript files). -/
theorem syncFile_step_inv (db : DBState) (file : Option RawFile) (path : String)
    (hinv : StoreInv db)
    (hmono : ∀ s, (parseTranscript file path).1 = some s →
      ∀ srow ∈ db.sessions, srow.id = s.id → srow.turn_count ≤ s.turns.length) :
    StoreInv (syncFile db file path).1 := by
  unfold syncFile
  cases hp : parseTranscript file path with
  | mk o bytes =>
    cases o with
    | none => exact hinv
    | some s =>
      dsimp only
      by_cases ht : s.turns.isEmpty = true
      · rw [if_pos ht]; exact hinv
      · rw [if_neg ht]
        by_cases hsk : skipSync db s.id bytes = true
        · rw [if_pos hsk]; exact hinv
        · rw [if_neg hsk]
          dsimp only
          rw [syncWrites_foldl]
          have hnum : s.turns.map (·.turnNumber) = List.range' 1 s.turns.length :=
            parse_turns_numbered file path s (by rw [hp])
          have hs_mono : ∀ srow ∈ db.sessions, srow.id = s.id →
              srow.turn_count ≤ s.turns.length := hmono s (by rw [hp])
          have hT : (upsertSession db s s.turns.length bytes).turns = db.turns :=
            upsertSession_turns db s s.turns.length bytes
          unfold StoreInv
          refine ⟨?_, ?_, ?_, ?_⟩
          · rw [applyTurns_sessions]
            exact upsertSession_unique db s _ bytes hinv.1
          · exact applyTurns_keysUnique _ _ s.id (by rw [hT]; exact hinv.2.1)
          · intro srow2 hs2 k
            rw [applyTurns_sessions] at hs2
            rw [applyTurns_hasKey,
              hasTurnKey_turns_eq hT srow2.id k]
            rcases upsertSession_mem db s _ bytes srow2 hs2 with ⟨hid, htc⟩ | ⟨hold, hne⟩
            · rw [hid, htc]
              have hmem : ∀ j, j ∈ s.turns.map (·.turnNumber) ↔
                  (1 ≤ j ∧ j ≤ s.turns.length) := by
                intro j
                rw [hnum, List.mem_range'_1]
                omega
              constructor
              · rintro (hkey | ⟨_, hin⟩)
                · obtain ⟨r, hr, hks, hkn⟩ := hkey
                  obtain ⟨srow0, h0, hid0⟩ := hinv.2.2.2 r hr
                  have hkey0 : hasTurnKey db srow0.id k := ⟨r, hr, hid0.symm, hkn⟩
                  have hb := (hinv.2.2.1 srow0 h0 k).mp hkey0
                  have hle := hs_mono srow0 h0 (hid0.trans hks)
                  exact ⟨hb.1, le_trans hb.2 hle⟩
                · exact (hmem k).mp hin
              · intro hk
                exact Or.inr ⟨rfl, (hmem k).mpr hk⟩
            · have hIff := hinv.2.2.1 srow2 hold k
              constructor
              · rintro (hkey | ⟨heq, _⟩)
                · exact hIff.mp hkey
                · exact absurd heq hne
              · intro hk
                exact Or.inl (hIff.mpr hk)
          · intro t2 ht2
            rw [applyTurns_sessions]
            rcases applyTurns_orphan s.turns _ s.id t2 ht2 with ⟨t0, ht0, hid⟩ | h2
            · rw [hT] at ht0
              obtain ⟨srow0, h0, hid0⟩ := hinv.2.2.2 t0 ht0
              obtain ⟨r2, hr2, hid2⟩ := upsertSession_id_cover db s _ bytes srow0 h0
              exact ⟨r2, hr2, by rw [hid2, hid0, ← hid]⟩
            · obtain ⟨r2, hr2, hid2, _⟩ := upsertSession_exists db s _ bytes
              exact ⟨r2, hr2, by rw [hid2, h2]⟩

/-- A sequence of `syncFile` calls, as issued by the watcher or `syncAll`:
each element is the observable file content at the time of its sync, plus the
path. -/
def syncMany (db : DBState) (inputs : List (Option RawFile × String)) : DBState :=
  inputs.foldl (fun d i => (syncFile d i.1 i.2).1) db

/-- Between an earlier and a later sync of the same session, the parsed turn
count does not shrink.  This holds whenever transcript files are append-only,
and is the hypothesis under which the turn-count invariant is maintained. -/
def SyncMonoRel (a b : Option RawFile × String) : Prop :=
  ∀ s1 s2, (parseTranscript a.1 a.2).1 = some s1 →
    (parseTranscript b.1 b.2).1 = some s2 →
    s1.id = s2.id → s1.turns.length ≤ s2.turns.length

theorem syncFile_sessions_mem (db : DBState) (file : Option RawFile)
    (path : String) (r2 : SessionRow)
    (h : r2 ∈ (syncFile db file path).1.sessions) :
    r2 ∈ db.sessions ∨
      (∃ s, (parseTranscript file path).1 = some s ∧ r2.id = s.id ∧
        r2.turn_count = s.turns.length) := by
  unfold syncFile at h
  cases hp : parseTranscript file path with
  | mk o bytes =>
    rw [hp] at h
    cases o with
    | none => exact Or.inl h
    | some s =>
      dsimp only at h
      by_cases ht : s.turns.isEmpty = true
      · rw [if_pos ht] at h
        exact Or.inl h
      · rw [if_neg ht] at h
        by_cases hsk : skipSync db s.id bytes = true
        · rw [if_pos hsk] at h
          exact Or.inl h
        · rw [if_neg hsk] at h
          dsimp only at h
          rw [syncWrites_foldl, applyTurns_sessions] at h
          rcases upsertSession_mem db s _ bytes r2 h with ⟨hid, htc⟩ | ⟨hold, _⟩
          · exact Or.inr ⟨s, rfl, hid, htc⟩
          · exact Or.inl hold

theorem syncMany_inv :
    ∀ (inputs : List (Option RawFile × String)) (db : DBState),
      StoreInv db →
      (∀ inp ∈ inputs, ∀ s, (parseTranscript inp.1 inp.2).1 = some s →
        ∀ srow ∈ db.sessions, srow.id = s.id →
          srow.turn_count ≤ s.turns.length) →
      inputs.Pairwise SyncMonoRel →
      StoreInv (syncMany db inputs) := by
  intro inputs
  induction inputs with
  | nil => intro db hinv _ _; exact hinv
  | cons inp rest ih =>
    intro db hinv hready hpw
    unfold syncMany
    simp only [List.foldl_cons]
    have hstep := syncFile_step_inv db inp.1 inp.2 hinv
      (fun s hs srow hsrow hid => hready inp (by simp) s hs srow hsrow hid)
    refine ih (syncFile db inp.1 inp.2).1 hstep ?_ (List.pairwise_cons.mp hpw).2
    intro inp2 hinp2 s2 hs2 srow hsrow hid
    rcases syncFile_sessions_mem db inp.1 inp.2 srow hsrow with hold | ⟨s1, hp1, hid1, htc1⟩
    · exact hready inp2 (List.mem_cons_of_mem _ hinp2) s2 hs2 srow hold hid
    · have hmon := (List.pairwise_cons.mp hpw).1 inp2 hinp2 s1 s2 hp1 hs2
        (hid1.symm.trans hid)
      rw [htc1]
      exact hmon

/-- C1 (amended): starting from an empty record store, after any sequence of
`syncFile` calls in which the parsed turn count of each session never
shrinks between successive syncs (true in particular for append-only
transcript files), every session row's `turn_count` equals the number of
persisted `conversation_turns` rows for that session id.  Without the
monotonicity hypothesis the invariant can be violated (see the
counterexample): a rewritten file with more bytes but fewer extractable
turns leaves stale turn rows behind. -/
theorem syncMany_turn_count (inputs : List (Option RawFile × String))
    (hmono : inputs.Pairwise SyncMonoRel) :
    ∀ srow ∈ (syncMany emptyDB inputs).sessions,
      srow.turn_count = ((syncMany emptyDB inputs).turns.filter
        (fun t => t.session_id == srow.id)).length := by
  have hinv := syncMany_inv inputs emptyDB storeInv_empty
    (by intro inp _ s _ srow h; cases h) hmono
  intro srow hs
  exact (inv_count hinv srow hs).symm

/-- A transcript with three extractable prompts (100 bytes). -/
def c1FileA : RawFile :=
  { entries :=
      [ { etype := "user", timestamp := "t1", sessionId := "sA",
          cwd := "/proj", version := "", gitBranch := "",
          message := some { content := .str "first prompt", model := "" } },
        { etype := "user", timestamp := "t2", sessionId := "sA",
          cwd := "", version := "", gitBranch := "",
          message := some { content := .str "second prompt", model := "" } },
        { etype := "user", timestamp := "t3", sessionId := "sA",
          cwd := "", version := "", gitBranch := "",
          message := some { content := .str "third prompt", model := "" } } ]
    byteLen := 100 }

/-- A rewrite of the same session's transcript: more bytes (so the cursor
check does not skip it) but only one extractable prompt. -/
def c1FileB : RawFile :=
  { entries :=
      [ { etype := "user", timestamp := "t9", sessionId := "sA",
          cwd := "/proj", version := "", gitBranch := "",
          message := some { content := .str "only prompt after rewrite", model := "" } } ]
    byteLen := 150 }

/-- C1 counterexample: syncing `c1FileA` (three turns) and then the rewritten
`c1FileB` (one turn, more bytes) leaves the session's `turn_count` at 1 while
three turn rows remain persisted, so the claimed invariant fails for
arbitrary sequences of `syncFile` calls. -/
theorem syncMany_turn_count_counterexample :
    ¬ (∀ (inputs : List (Option RawFile × String)),
        ∀ srow ∈ (syncMany emptyDB inputs).sessions,
          srow.turn_count = ((syncMany emptyDB inputs).turns.filter
            (fun t => t.session_id == srow.id)).length) := by
  intro h
  have h2 := h [(some c1FileA, "p/h/sA.jsonl"), (some c1FileB, "p/h/sA.jsonl")]
    ((syncMany emptyDB [(some c1FileA, "p/h/sA.jsonl"), (some c1FileB, "p/h/sA.jsonl")]).sessions.get
      ⟨0, by decide⟩)
    (List.get_mem _ _ _)
  exact absurd h2 (by decide)

/-- The pairwise monotonicity hypothesis for syncing `witFile` and then its
append-extension `witFileB`. -/
theorem c1_witness_mono :
    [((some witFile : Option RawFile), "/projhash/sess1.jsonl"),
     ((some witFileB : Option RawFile), "/projhash/sess1.jsonl")].Pairwise SyncMonoRel := by
  refine List.pairwise_cons.mpr ⟨?_, List.pairwise_singleton _ _⟩
  intro b hb
  rw [List.mem_singleton.mp hb]
  intro s1 s2 h1 h2 _
  have e1 : (parseTranscript (some witFile) "/projhash/sess1.jsonl").1 =
      some witSession := by decide
  have e2 : (parseTranscript (some witFileB) "/projhash/sess1.jsonl").1 =
      some ((parseTranscript (some witFileB) "/projhash/sess1.jsonl").1.getD noSession) := by
    decide
  rw [e1] at h1
  rw [e2] at h2
  cases h1
  cases h2
  decide

theorem syncMany_turn_count_witness :
    ((syncMany emptyDB [((some witFile : Option RawFile), "/projhash/sess1.jsonl"),
        ((some witFileB : Option RawFile), "/projhash/sess1.jsonl")]).sessions.get
          ⟨0, by decide⟩).turn_count =
      ((syncMany emptyDB [((some witFile : Option RawFile), "/projhash/sess1.jsonl"),
        ((some witFileB : Option RawFile), "/projhash/sess1.jsonl")]).turns.filter
          (fun t => t.session_id ==
            ((syncMany emptyDB [((some witFile : Option RawFile), "/projhash/sess1.jsonl"),
              ((some witFileB : Option RawFile), "/projhash/sess1.jsonl")]).sessions.get
                ⟨0, by decide⟩).id)).length :=
  syncMany_turn_count _ c1_witness_mono _ (List.get_mem _ _ _)

/-! ### Transaction atomicity (claim C8) -/

/-- Modelled from the spec: the record store's transaction primitive
(better-sqlite3's `db.transaction`, a library external to the repository)
runs a list of writes all-or-nothing — if any write fails, every write
already applied is rolled back and the store is left as it was.  The failure
oracle `fail` says which write positions throw. -/
def runTransaction (writes : List (DBState → DBState)) (fail : Nat → Bool)
    (db : DBState) : Option DBState :=
  if (List.range writes.length).any fail then none
  else some (writes.foldl (fun d w => w d) db)

/-- Embedding of `syncFile` under the fallible store model: identical to `syncFile`
except that the transaction may fail, in which case the exception propagates
to the caller with no events emitted and the store untouched. -/
def syncFileF (fail : Nat → Bool) (db : DBState) (file : Option RawFile)
    (path : String) : DBState × List SyncEvent :=
  match parseTranscript file path with
  | (none, _) => (db, [])
  | (some s, bytesRead) =>
    if s.turns.isEmpty then (db, [])
    else if skipSync db s.id bytesRead then (db, [])
    else
      match runTransaction (syncWrites s bytesRead) fail db with
      | none => (db, [])
      | some db2 => (db2, [ { sessionId := s.id, turnCount := s.turns.length } ])

/-- C8: the session upsert and all turn upserts of one `syncFile` call are
atomic — whatever subset of the transaction's writes fails, the call either
produces exactly the state and events of an untroubled `syncFile`, or leaves
the record store exactly as it was with no events (so a reader can never
observe a session row whose turn count is inconsistent with its persisted
turns). -/
theorem syncFileF_atomic (fail : Nat → Bool) (db : DBState)
    (file : Option RawFile) (path : String) :
    syncFileF fail db file path = syncFile db file path ∨
      syncFileF fail db file path = (db, []) := by
  unfold syncFileF syncFile
  cases hp : parseTranscript file path with
  | mk o bytes =>
    cases o with
    | none => exact Or.inl rfl
    | some s =>
      dsimp only
      by_cases ht : s.turns.isEmpty = true
      · simp only [if_pos ht]
        exact Or.inl trivial
      · simp only [if_neg ht]
        by_cases hsk : skipSync db s.id bytes = true
        · simp only [if_pos hsk]
          exact Or.inl trivial
        · simp only [if_neg hsk]
          unfold runTransaction
          by_cases hf : (List.range (syncWrites s bytes).length).any fail = true
          · simp only [if_pos hf]
            exact Or.inr trivial
          · simp only [if_neg hf]
            exact Or.inl trivial

/-! ### Pattern analyzer: shared helpers

The analyzer queries join `conversation_turns` with `sessions`, restrict to a
date window (`s.started_at >= datetime('now', '-days')`) and an optional
project filter (`s.project_path LIKE '%filter%'`).  The window test and the
filter test are embedded as the predicates `recent` and `pfilter`; every
theorem holds for all predicate instantiations (a caller without a project
filter passes `fun _ => true`). -/

/-- The SQL join `conversation_turns ct JOIN sessions s ON ct.session_id = s.id`. -/
def joinTS (db : DBState) : List (TurnRow × SessionRow) :=
  db.turns.flatMap (fun ct =>
    (db.sessions.filter (fun s => s.id == ct.session_id)).map (fun s => (ct, s)))

/-- One `GROUP BY` group of an analyzer query: grouping key, `COUNT(*)`,
`COUNT(DISTINCT session_id)` and the distinct contributing project paths
(`GROUP_CONCAT(DISTINCT s.project_path)` split back apart). -/
structure GroupRow (κ : Type) where
  key : κ
  cnt : Nat
  sess : Nat
  projects : List String
  deriving Repr, DecidableEq

/-- Embedding of `GROUP BY` over occurrence rows `(key, session_id, project_path)`. -/
def groupRows {κ : Type} [DecidableEq κ] (occs : List (κ × String × String)) :
    List (GroupRow κ) :=
  ((occs.map (·.1)).dedup).map (fun kk =>
    let rows := occs.filter (fun o => decide (o.1 = kk))
    { key := kk, cnt := rows.length,
      sess := ((rows.map (fun o => o.2.1)).dedup).length,
      projects := (rows.map (fun o => o.2.2)).dedup })

/-- Embedding of `ORDER BY sess DESC, cnt DESC` as a relation on groups. -/
def seqDescOrder {κ : Type} (a b : GroupRow κ) : Prop :=
  b.sess < a.sess ∨ (a.sess = b.sess ∧ b.cnt ≤ a.cnt)

instance {κ : Type} : DecidableRel (seqDescOrder (κ := κ)) := by
  intro a b
  unfold seqDescOrder
  infer_instance

instance {κ : Type} : IsTotal (GroupRow κ) seqDescOrder := by
  refine ⟨fun a b => ?_⟩
  unfold seqDescOrder
  omega

instance {κ : Type} : IsTrans (GroupRow κ) seqDescOrder := by
  refine ⟨fun a b c hab hbc => ?_⟩
  unfold seqDescOrder at *
  omega

/-- Embedding of `HAVING sess >= minFreq ORDER BY sess DESC, cnt DESC LIMIT cap`. -/
def topGroups {κ : Type} [DecidableEq κ] (minFreq cap : Nat)
    (occs : List (κ × String × String)) : List (GroupRow κ) :=
  (List.insertionSort seqDescOrder
    ((groupRows occs).filter (fun g => decide (minFreq ≤ g.sess)))).take cap

/-! ### Tool sequence mining (claim C9) -/

/-- Embedding of `ToolSequenceData` of the analyzer. -/
structure ToolSequenceData where
  tsType : String
  sequence : String
  count : Nat
  sessionCount : Nat
  projects : List String
  deriving Repr, DecidableEq

/-- Intra-turn adjacent pairs: `json_each` self-joined on `b.key = a.key+1`. -/
def adjacentPairs {α : Type} (l : List α) : List (α × α) :=
  l.zip l.tail

/-- Intra-turn adjacent triples: `json_each` joined on `+1` and `+2`. -/
def adjacentTriples {α : Type} (l : List α) : List (α × α × α) :=
  (l.zip l.tail).zip l.tail.tail |>.map (fun p => (p.1.1, p.1.2, p.2))

/-- Bigram occurrence rows, keyed by the rendered `a || ' → ' || b` label. -/
def bigramOccs (recent pfilter : String → Bool) (db : DBState) :
    List (String × String × String) :=
  (joinTS db).flatMap (fun p =>
    if recent p.2.started_at && pfilter p.2.project_path then
      match p.1.assistant_tools with
      | some tools => (adjacentPairs tools).map
          (fun q => (q.1 ++ " → " ++ q.2, p.1.session_id, p.2.project_path))
      | none => []
    else [])

/-- Trigram occurrence rows. -/
def trigramOccs (recent pfilter : String → Bool) (db : DBState) :
    List (String × String × String) :=
  (joinTS db).flatMap (fun p =>
    if recent p.2.started_at && pfilter p.2.project_path then
      match p.1.assistant_tools with
      | some tools => (adjacentTriples tools).map
          (fun q => (q.1 ++ " → " ++ q.2.1 ++ " → " ++ q.2.2,
            p.1.session_id, p.2.project_path))
      | none => []
    else [])

/-- Full-turn signature occurrence rows, keyed by the stored tool array
itself (the SQL groups by the raw `assistant_tools` JSON string, which
determines the array). -/
def signatureOccs (recent pfilter : String → Bool) (db : DBState) :
    List (List String × String × String) :=
  (joinTS db).flatMap (fun p =>
    if recent p.2.started_at && pfilter p.2.project_path then
      match p.1.assistant_tools with
      | some tools =>
        if 2 ≤ tools.length then [(tools, p.1.session_id, p.2.project_path)]
        else []
      | none => []
    else [])

/-- Cross-turn occurrence rows: last tool of turn `N` paired with first tool
of turn `N + 1` in the same session. -/
def crossOccs (recent pfilter : String → Bool) (db : DBState) :
    List (String × String × String) :=
  (joinTS db).flatMap (fun p1 =>
    if recent p1.2.started_at && pfilter p1.2.project_path then
      match p1.1.assistant_tools with
      | some (h1 :: t1) =>
        (joinTS db).flatMap (fun p2 =>
          if recent p2.2.started_at && pfilter p2.2.project_path &&
             (p2.1.session_id == p1.1.session_id) &&
             (p2.1.turn_number == p1.1.turn_number + 1) then
            match p2.1.assistant_tools with
            | some (h2 :: _) =>
              [((h1 :: t1).getLastD h1 ++ " →→ " ++ h2,
                p1.1.session_id, p1.2.project_path)]
            | _ => []
          else [])
      | _ => []
    else [])

/-- Embedding of `getToolSequences`: the four mined categories concatenated, each
thresholded by `minFreq` (`opts.minFrequency ?? 3`), ordered by distinct
sessions then raw count descending, and capped at 30/20/20/15. -/
def getToolSequences (recent pfilter : String → Bool) (db : DBState)
    (minFreq : Nat) : List ToolSequenceData :=
  ((topGroups minFreq 30 (bigramOccs recent pfilter db)).map
    (fun g => { tsType := "bigram", sequence := g.key, count := g.cnt,
                sessionCount := g.sess, projects := g.projects })) ++
  ((topGroups minFreq 20 (trigramOccs recent pfilter db)).map
    (fun g => { tsType := "trigram", sequence := g.key, count := g.cnt,
                sessionCount := g.sess, projects := g.projects })) ++
  ((topGroups minFreq 20 (signatureOccs recent pfilter db)).map
    (fun g => { tsType := "signature", sequence := jsJoin " → " g.key,
                count := g.cnt, sessionCount := g.sess,
                projects := g.projects })) ++
  ((topGroups minFreq 15 (crossOccs recent pfilter db)).map
    (fun g => { tsType := "cross_turn", sequence := g.key, count := g.cnt,
                sessionCount := g.sess, projects := [] }))

/-- Embedding of `ORDER BY sess DESC, cnt DESC` on the emitted records. -/
def seqOrdered (a b : ToolSequenceData) : Prop :=
  b.sessionCount < a.sessionCount ∨
    (a.sessionCount = b.sessionCount ∧ b.count ≤ a.count)

theorem topGroups_minFreq {κ : Type} [DecidableEq κ] (minFreq cap : Nat)
    (occs : List (κ × String × String)) (g : GroupRow κ)
    (h : g ∈ topGroups minFreq cap occs) : minFreq ≤ g.sess := by
  unfold topGroups at h
  have h2 := List.take_subset _ _ h
  have h3 := (List.perm_insertionSort seqDescOrder _).subset h2
  have := (List.mem_filter.mp h3).2
  simpa using this

theorem topGroups_sorted {κ : Type} [DecidableEq κ] (minFreq cap : Nat)
    (occs : List (κ × String × String)) :
    (topGroups minFreq cap occs).Pairwise seqDescOrder := by
  unfold topGroups
  exact (List.sorted_insertionSort seqDescOrder _).sublist (List.take_sublist _ _)

theorem topGroups_length {κ : Type} [DecidableEq κ] (minFreq cap : Nat)
    (occs : List (κ × String × String)) :
    (topGroups minFreq cap occs).length ≤ cap := by
  unfold topGroups
  simp [List.length_take]

theorem map_topGroups_sorted {κ : Type} [DecidableEq κ] (minFreq cap : Nat)
    (occs : List (κ × String × String)) (f : GroupRow κ → ToolSequenceData)
    (hf : ∀ g, (f g).sessionCount = g.sess ∧ (f g).count = g.cnt) :
    ((topGroups minFreq cap occs).map f).Pairwise seqOrdered := by
  refine List.Pairwise.map _ ?_ (topGroups_sorted minFreq cap occs)
  intro a b h
  unfold seqOrdered
  rw [(hf a).1, (hf a).2, (hf b).1, (hf b).2]
  exact h

theorem filter_tag_of_all {l : List ToolSequenceData} {tag : String}
    (h : ∀ r ∈ l, (r.tsType == tag) = true) :
    l.filter (fun r => r.tsType == tag) = l :=
  List.filter_eq_self.mpr h

theorem filter_tag_of_none {l : List ToolSequenceData} {tag : String}
    (h : ∀ r ∈ l, (r.tsType == tag) = false) :
    l.filter (fun r => r.tsType == tag) = [] := by
  rw [List.filter_eq_nil_iff]
  intro a ha
  simp [h a ha]

/-- C9: every returned tool sequence meets the configured minimum distinct-
session threshold; within each category the list is ordered by distinct-
session count descending, then raw occurrence count descending; and the
categories are capped at 30 bigrams, 20 trigrams, 20 signatures and 15
cross-turn transitions. -/
theorem getToolSequences_props (recent pfilter : String → Bool) (db : DBState)
    (minFreq : Nat) :
    (∀ r ∈ getToolSequences recent pfilter db minFreq,
      minFreq ≤ r.sessionCount) ∧
    ((getToolSequences recent pfilter db minFreq).filter
      (fun r => r.tsType == "bigram")).length ≤ 30 ∧
    ((getToolSequences recent pfilter db minFreq).filter
      (fun r => r.tsType == "trigram")).length ≤ 20 ∧
    ((getToolSequences recent pfilter db minFreq).filter
      (fun r => r.tsType == "signature")).length ≤ 20 ∧
    ((getToolSequences recent pfilter db minFreq).filter
      (fun r => r.tsType == "cross_turn")).length ≤ 15 ∧
    ((getToolSequences recent pfilter db minFreq).filter
      (fun r => r.tsType == "bigram")).Pairwise seqOrdered ∧
    ((getToolSequences recent pfilter db minFreq).filter
      (fun r => r.tsType == "trigram")).Pairwise seqOrdered ∧
    ((getToolSequences recent pfilter db minFreq).filter
      (fun r => r.tsType == "signature")).Pairwise seqOrdered ∧
    ((getToolSequences recent pfilter db minFreq).filter
      (fun r => r.tsType == "cross_turn")).Pairwise seqOrdered := by
  have eB : (getToolSequences recent pfilter db minFreq).filter
      (fun r => r.tsType == "bigram") =
      (topGroups minFreq 30 (bigramOccs recent pfilter db)).map
        (fun g => ({ tsType := "bigram", sequence := g.key, count := g.cnt,
                     sessionCount := g.sess,
                     projects := g.projects } : ToolSequenceData)) := by
    unfold getToolSequences
    rw [List.filter_append, List.filter_append, List.filter_append]
    rw [filter_tag_of_all
        (fun r hr => by obtain ⟨g, _, rfl⟩ := List.mem_map.mp hr; rfl),
      filter_tag_of_none
        (fun r hr => by obtain ⟨g, _, rfl⟩ := List.mem_map.mp hr; rfl),
      filter_tag_of_none
        (fun r hr => by obtain ⟨g, _, rfl⟩ := List.mem_map.mp hr; rfl),
      filter_tag_of_none
        (fun r hr => by obtain ⟨g, _, rfl⟩ := List.mem_map.mp hr; rfl)]
    simp
  have eT : (getToolSequences recent pfilter db minFreq).filter
      (fun r => r.tsType == "trigram") =
      (topGroups minFreq 20 (trigramOccs recent pfilter db)).map
        (fun g => ({ tsType := "trigram", sequence := g.key, count := g.cnt,
                     sessionCount := g.sess,
                     projects := g.projects } : ToolSequenceData)) := by
    unfold getToolSequences
    rw [List.filter_append, List.filter_append, List.filter_append]
    rw [filter_tag_of_none
        (fun r hr => by obtain ⟨g, _, rfl⟩ := List.mem_map.mp hr; rfl),
      filter_tag_of_all
        (fun r hr => by obtain ⟨g, _, rfl⟩ := List.mem_map.mp hr; rfl),
      filter_tag_of_none
        (fun r hr => by obtain ⟨g, _, rfl⟩ := List.mem_map.mp hr; rfl),
      filter_tag_of_none
        (fun r hr => by obtain ⟨g, _, rfl⟩ := List.mem_map.mp hr; rfl)]
    simp
  have eS : (getToolSequences recent pfilter db minFreq).filter
      (fun r => r.tsType == "signature") =
      (topGroups minFreq 20 (signatureOccs recent pfilter db)).map
        (fun g => ({ tsType := "signature", sequence := jsJoin " → " g.key,
                     count := g.cnt, sessionCount := g.sess,
                     projects := g.projects } : ToolSequenceData)) := by
    unfold getToolSequences
    rw [List.filter_append, List.filter_append, List.filter_append]
    rw [filter_tag_of_none
        (fun r hr => by obtain ⟨g, _, rfl⟩ := List.mem_map.mp hr; rfl),
      filter_tag_of_none
        (fun r hr => by obtain ⟨g, _, rfl⟩ := List.mem_map.mp hr; rfl),
      filter_tag_of_all
        (fun r hr => by obtain ⟨g, _, rfl⟩ := List.mem_map.mp hr; rfl),
      filter_tag_of_none
        (fun r hr => by obtain ⟨g, _, rfl⟩ := List.mem_map.mp hr; rfl)]
    simp
  have eC : (getToolSequences recent pfilter db minFreq).filter
      (fun r => r.tsType == "cross_turn") =
      (topGroups minFreq 15 (crossOccs recent pfilter db)).map
        (fun g => ({ tsType := "cross_turn", sequence := g.key, count := g.cnt,
                     sessionCount := g.sess,
                     projects := [] } : ToolSequenceData)) := by
    unfold getToolSequences
    rw [List.filter_append, List.filter_append, List.filter_append]
    rw [filter_tag_of_none
        (fun r hr => by obtain ⟨g, _, rfl⟩ := List.mem_map.mp hr; rfl),
      filter_tag_of_none
        (fun r hr => by obtain ⟨g, _, rfl⟩ := List.mem_map.mp hr; rfl),
      filter_tag_of_none
        (fun r hr => by obtain ⟨g, _, rfl⟩ := List.mem_map.mp hr; rfl),
      filter_tag_of_all
        (fun r hr => by obtain ⟨g, _, rfl⟩ := List.mem_map.mp hr; rfl)]
    simp
  refine ⟨?_, ?_, ?_, ?_, ?_, ?_, ?_, ?_, ?_⟩
  · intro r hr
    unfold getToolSequences at hr
    rcases List.mem_append.mp hr with h3 | hD
    · rcases List.mem_append.mp h3 with h2 | hC
      · rcases List.mem_append.mp h2 with hA | hB
        · obtain ⟨g, hg, rfl⟩ := List.mem_map.mp hA
          exact topGroups_minFreq _ _ _ _ hg
        · obtain ⟨g, hg, rfl⟩ := List.mem_map.mp hB
          exact topGroups_minFreq _ _ _ _ hg
      · obtain ⟨g, hg, rfl⟩ := List.mem_map.mp hC
        exact topGroups_minFreq _ _ _ _ hg
    · obtain ⟨g, hg, rfl⟩ := List.mem_map.mp hD
      exact topGroups_minFreq _ _ _ _ hg
  · rw [eB, List.length_map]
    exact topGroups_length _ _ _
  · rw [eT, List.length_map]
    exact topGroups_length _ _ _
  · rw [eS, List.length_map]
    exact topGroups_length _ _ _
  · rw [eC, List.length_map]
    exact topGroups_length _ _ _
  · rw [eB]
    exact map_topGroups_sorted _ _ _ _ (fun g => ⟨rfl, rfl⟩)
  · rw [eT]
    exact map_topGroups_sorted _ _ _ _ (fun g => ⟨rfl, rfl⟩)
  · rw [eS]
    exact map_topGroups_sorted _ _ _ _ (fun g => ⟨rfl, rfl⟩)
  · rw [eC]
    exact map_topGroups_sorted _ _ _ _ (fun g => ⟨rfl, rfl⟩)

/-- The trivial window/filter predicates (no project filter, everything
recent). -/
def allB : String → Bool := fun _ => true

/-- A store with three sessions, each with one turn invoking Read then Edit. -/
def c9DB : DBState :=
  { sessions :=
      [ { id := "a", project_path := "/p", project_hash := "h", jsonl_path := "f1",
          started_at := "2025-01-01", last_activity_at := "2025-01-01",
          version := "", git_branch := "", turn_count := 1, last_synced_bytes := 10 },
        { id := "b", project_path := "/p", project_hash := "h", jsonl_path := "f2",
          started_at := "2025-01-02", last_activity_at := "2025-01-02",
          version := "", git_branch := "", turn_count := 1, last_synced_bytes := 10 },
        { id := "c", project_path := "/q", project_hash := "h2", jsonl_path := "f3",
          started_at := "2025-01-03", last_activity_at := "2025-01-03",
          version := "", git_branch := "", turn_count := 1, last_synced_bytes := 10 } ]
    turns :=
      [ { session_id := "a", turn_number := 1, user_prompt := "fix it",
          user_prompt_at := "t1", assistant_text := "ok",
          assistant_tools := some ["Read", "Edit"], assistant_at := "t2", model := "m" },
        { session_id := "b", turn_number := 1, user_prompt := "fix it too",
          user_prompt_at := "t3", assistant_text := "ok",
          assistant_tools := some ["Read", "Edit"], assistant_at := "t4", model := "m" },
        { session_id := "c", turn_number := 1, user_prompt := "fix it also",
          user_prompt_at := "t5", assistant_text := "ok",
          assistant_tools := some ["Read", "Edit"], assistant_at := "t6", model := "m" } ] }

theorem getToolSequences_props_witness :
    3 ≤ ((getToolSequences allB allB c9DB 3).get ⟨0, by decide⟩).sessionCount :=
  (getToolSequences_props allB allB c9DB 3).1 _ (List.get_mem _ _ _)

/-! ### Friction points (claim C7)

`JULIANDAY` applied to the stored timestamp strings is embedded as a
parameter `jd : String → ℚ`; the SQL computes the gap as
`(JULIANDAY(ct2.user_prompt_at) - JULIANDAY(ct1.assistant_at)) * 86400`,
keeps raw gaps in `[0, 30]`, orders by the 1-decimal-rounded gap ascending
and truncates prompts to 200 characters.  Every theorem below holds for all
`jd`. -/

/-- Embedding of `FrictionPointData` of the analyzer. -/
structure FrictionPointData where
  sessionId : String
  turnNumber : Nat
  prompt : String
  retryPrompt : String
  gapSeconds : ℚ
  project : String
  deriving Repr, DecidableEq

/-- JavaScript `s.slice(0, 200)`. -/
def jsSlice200 (s : String) : String :=
  ⟨s.data.take 200⟩

/-- SQLite `ROUND(x, 1)` for the non-negative gaps that pass the filter:
round half away from zero to one decimal. -/
def round1 (q : ℚ) : ℚ :=
  (⌊q * 10 + 1/2⌋ : ℚ) / 10

/-- The joined friction query rows before ordering and truncation: adjacent
turn pairs of one session with both timestamps present and a raw gap within
`[0, 30]` seconds. -/
def frictionRows (jd : String → ℚ) (recent pfilter : String → Bool)
    (db : DBState) : List FrictionPointData :=
  db.turns.flatMap (fun ct1 =>
    db.turns.flatMap (fun ct2 =>
      (db.sessions.filter (fun s => s.id == ct1.session_id)).flatMap (fun s =>
        if (ct2.session_id == ct1.session_id) ∧
           (ct2.turn_number == ct1.turn_number + 1) ∧
           ct1.assistant_at ≠ "" ∧ ct2.user_prompt_at ≠ "" ∧
           recent s.started_at = true ∧ pfilter s.project_path = true ∧
           0 ≤ (jd ct2.user_prompt_at - jd ct1.assistant_at) * 86400 ∧
           (jd ct2.user_prompt_at - jd ct1.assistant_at) * 86400 ≤ 30 then
          [ { sessionId := ct1.session_id, turnNumber := ct1.turn_number,
              prompt := ct1.user_prompt, retryPrompt := ct2.user_prompt,
              gapSeconds :=
                round1 ((jd ct2.user_prompt_at - jd ct1.assistant_at) * 86400),
              project := s.project_path } ]
        else [])))

/-- Embedding of `ORDER BY gap_sec ASC` as a relation. -/
def gapOrder (a b : FrictionPointData) : Prop :=
  a.gapSeconds ≤ b.gapSeconds

instance : DecidableRel gapOrder := by
  intro a b
  unfold gapOrder
  infer_instance

instance : IsTotal FrictionPointData gapOrder :=
  ⟨fun a b => le_total a.gapSeconds b.gapSeconds⟩

instance : IsTrans FrictionPointData gapOrder :=
  ⟨fun _ _ _ hab hbc => le_trans hab hbc⟩

/-- Embedding of `getFrictionPoints`: order the rows by rounded gap ascending, keep the
first 50, truncate both prompts to 200 characters and default a missing
project path to `"unknown"`. -/
def getFrictionPoints (jd : String → ℚ) (recent pfilter : String → Bool)
    (db : DBState) : List FrictionPointData :=
  ((List.insertionSort gapOrder (frictionRows jd recent pfilter db)).take 50).map
    (fun r => { r with prompt := jsSlice200 r.prompt,
                       retryPrompt := jsSlice200 r.retryPrompt,
                       project := if r.project = "" then "unknown" else r.project })

theorem round1_nonneg {q : ℚ} (h : 0 ≤ q) : 0 ≤ round1 q := by
  unfold round1
  apply div_nonneg _ (by norm_num)
  have h2 : (0 : ℤ) ≤ ⌊q * 10 + 1/2⌋ := Int.floor_nonneg.mpr (by linarith)
  exact_mod_cast h2

theorem round1_le_30 {q : ℚ} (h : q ≤ 30) : round1 q ≤ 30 := by
  unfold round1
  rw [div_le_iff₀ (by norm_num : (0:ℚ) < 10)]
  have h1 : q * 10 + 1/2 < ((301 : ℤ) : ℚ) := by push_cast; linarith
  have h2 : (⌊q * 10 + 1/2⌋ : ℤ) < 301 := Int.floor_lt.mpr h1
  have h3 : (⌊q * 10 + 1/2⌋ : ℤ) ≤ 300 := by omega
  calc (⌊q * 10 + 1/2⌋ : ℚ) ≤ ((300 : ℤ) : ℚ) := by exact_mod_cast h3
    _ = 30 * 10 := by norm_num

theorem jsSlice200_length (s : String) : (jsSlice200 s).length ≤ 200 := by
  unfold jsSlice200
  show (s.data.take 200).length ≤ 200
  rw [List.length_take]
  exact Nat.min_le_left _ _

theorem frictionRows_bounds (jd : String → ℚ) (recent pfilter : String → Bool)
    (db : DBState) :
    ∀ r ∈ frictionRows jd recent pfilter db,
      0 ≤ r.gapSeconds ∧ r.gapSeconds ≤ 30 := by
  intro r hr
  unfold frictionRows at hr
  obtain ⟨ct1, _, hr⟩ := List.mem_flatMap.mp hr
  obtain ⟨ct2, _, hr⟩ := List.mem_flatMap.mp hr
  obtain ⟨s, _, hr⟩ := List.mem_flatMap.mp hr
  split at hr
  · rename_i hcond
    rw [List.mem_singleton.mp hr]
    exact ⟨round1_nonneg hcond.2.2.2.2.2.2.1,
      round1_le_30 hcond.2.2.2.2.2.2.2⟩
  · cases hr

/-- C7: every friction-point list has at most 50 entries, is sorted by gap
ascending, and each entry's gap lies within `[0, 30]` seconds with both
prompt texts truncated to at most 200 characters. -/
theorem getFrictionPoints_props (jd : String → ℚ)
    (recent pfilter : String → Bool) (db : DBState) :
    (getFrictionPoints jd recent pfilter db).length ≤ 50 ∧
    (getFrictionPoints jd recent pfilter db).Pairwise gapOrder ∧
    ∀ r ∈ getFrictionPoints jd recent pfilter db,
      0 ≤ r.gapSeconds ∧ r.gapSeconds ≤ 30 ∧
      r.prompt.length ≤ 200 ∧ r.retryPrompt.length ≤ 200 := by
  refine ⟨?_, ?_, ?_⟩
  · unfold getFrictionPoints
    rw [List.length_map, List.length_take]
    exact Nat.min_le_left _ _
  · unfold getFrictionPoints
    refine List.Pairwise.map _ ?_
      ((List.sorted_insertionSort gapOrder _).sublist (List.take_sublist _ _))
    intro a b h
    exact h
  · intro r hr
    unfold getFrictionPoints at hr
    obtain ⟨r0, hr0, rfl⟩ := List.mem_map.mp hr
    have hmem : r0 ∈ frictionRows jd recent pfilter db :=
      (List.perm_insertionSort gapOrder _).subset (List.take_subset _ _ hr0)
    have hb := frictionRows_bounds jd recent pfilter db r0 hmem
    exact ⟨hb.1, hb.2, jsSlice200_length _, jsSlice200_length _⟩

/-- A constant JULIANDAY valuation for witnesses. -/
def jd0 : String → ℚ := fun _ => 0

/-- A store with one session and two adjacent turns, yielding exactly one
friction pair under `jd0`. -/
def c7DB : DBState :=
  { sessions :=
      [ { id := "a", project_path := "/p", project_hash := "h", jsonl_path := "f1",
          started_at := "2025-01-01", last_activity_at := "2025-01-01",
          version := "", git_branch := "", turn_count := 2, last_synced_bytes := 10 } ]
    turns :=
      [ { session_id := "a", turn_number := 1, user_prompt := "fix it",
          user_prompt_at := "u1", assistant_text := "ok",
          assistant_tools := none, assistant_at := "a1", model := "" },
        { session_id := "a", turn_number := 2, user_prompt := "fix it again",
          user_prompt_at := "u2", assistant_text := "",
          assistant_tools := none, assistant_at := "", model := "" } ] }

theorem c7_len : 0 < (getFrictionPoints jd0 allB allB c7DB).length := by
  norm_num [getFrictionPoints, frictionRows, c7DB, jd0, allB,
    List.insertionSort, List.orderedInsert]

theorem getFrictionPoints_props_witness :
    0 ≤ ((getFrictionPoints jd0 allB allB c7DB).get ⟨0, c7_len⟩).gapSeconds ∧
    ((getFrictionPoints jd0 allB allB c7DB).get ⟨0, c7_len⟩).gapSeconds ≤ 30 ∧
    ((getFrictionPoints jd0 allB allB c7DB).get ⟨0, c7_len⟩).prompt.length ≤ 200 ∧
    ((getFrictionPoints jd0 allB allB c7DB).get ⟨0, c7_len⟩).retryPrompt.length ≤ 200 :=
  (getFrictionPoints_props jd0 allB allB c7DB).2.2 _ (List.get_mem _ _ _)

/-! ### Project profiles (claim C6) -/

/-- One `toolDistribution` entry of a `ProjectProfileData`: tool name, raw
count, percentage (rounded to one decimal) and enrichment ratio (rounded to
two decimals). -/
structure DistEntry where
  tool : String
  count : Nat
  pct : ℚ
  enrichment : ℚ
  deriving Repr, DecidableEq

/-- Embedding of `ProjectProfileData` of the analyzer (a `uniqueSequences` element is a
rendered sequence with its count). -/
structure ProjectProfileData where
  projectPath : String
  sessionCount : Nat
  turnCount : Nat
  toolDistribution : List DistEntry
  uniqueSequences : List (String × Nat)
  deriving Repr, DecidableEq

/-- The global tool-occurrence multiset: every `json_each` value of every
recent turn's `assistant_tools` (no project filter and no
`project_path IS NOT NULL` condition, exactly as in the source's global
query). -/
def globalOccs (recent : String → Bool) (db : DBState) : List String :=
  (joinTS db).flatMap (fun p =>
    if recent p.2.started_at then
      match p.1.assistant_tools with
      | some tools => tools
      | none => []
    else [])

def globalToolCount (recent : String → Bool) (db : DBState) (t : String) : Nat :=
  (globalOccs recent db).count t

def globalTotal (recent : String → Bool) (db : DBState) : Nat :=
  (globalOccs recent db).length

/-- The per-project tool-occurrence multiset (recent, non-null project path,
project filter, path equal to `p`). -/
def projOccs (recent pfilter : String → Bool) (db : DBState) (p : String) :
    List String :=
  (joinTS db).flatMap (fun q =>
    if recent q.2.started_at && !(q.2.project_path == "") &&
       pfilter q.2.project_path && (q.2.project_path == p) then
      match q.1.assistant_tools with
      | some tools => tools
      | none => []
    else [])

def projToolCount (recent pfilter : String → Bool) (db : DBState)
    (p t : String) : Nat :=
  (projOccs recent pfilter db p).count t

def projTotal (recent pfilter : String → Bool) (db : DBState) (p : String) : Nat :=
  (projOccs recent pfilter db p).length

/-- The projects appearing in the per-project query (those with at least one
tool occurrence), deduplicated. -/
def projectsOf (recent pfilter : String → Bool) (db : DBState) : List String :=
  ((joinTS db).flatMap (fun q =>
    if recent q.2.started_at && !(q.2.project_path == "") &&
       pfilter q.2.project_path then
      match q.1.assistant_tools with
      | some (_ :: _) => [q.2.project_path]
      | _ => []
    else [])).dedup

/-- Embedding of `COUNT(DISTINCT s.id)` of the stats query for one project. -/
def statsSessions (recent pfilter : String → Bool) (db : DBState) (p : String) :
    Nat :=
  (((db.sessions.filter (fun s => recent s.started_at &&
      !(s.project_path == "") && pfilter s.project_path &&
      (s.project_path == p))).map (·.id)).dedup).length

/-- Embedding of `COUNT(ct.id)` of the stats query (`sessions LEFT JOIN turns`) for one
project. -/
def statsTurns (recent pfilter : String → Bool) (db : DBState) (p : String) :
    Nat :=
  ((db.sessions.filter (fun s => recent s.started_at &&
      !(s.project_path == "") && pfilter s.project_path &&
      (s.project_path == p))).flatMap (fun s =>
    db.turns.filter (fun ct => ct.session_id == s.id))).length

/-- Descending order on the second (count) component. -/
def sndDescOrder {α : Type} (a b : α × Nat) : Prop := b.2 ≤ a.2

instance {α : Type} : DecidableRel (sndDescOrder (α := α)) := by
  intro a b
  unfold sndDescOrder
  infer_instance

instance {α : Type} : IsTotal (α × Nat) sndDescOrder :=
  ⟨fun a b => le_total b.2 a.2⟩

instance {α : Type} : IsTrans (α × Nat) sndDescOrder :=
  ⟨fun _ _ _ hab hbc => le_trans hbc hab⟩

/-- The `(tool, cnt)` rows of one project, ordered `cnt DESC` as in the SQL. -/
def toolRowsOf (recent pfilter : String → Bool) (db : DBState) (p : String) :
    List (String × Nat) :=
  List.insertionSort sndDescOrder
    (((projOccs recent pfilter db p).dedup).map
      (fun t => (t, (projOccs recent pfilter db p).count t)))

/-- One distribution entry: share of the project's total, and enrichment
ratio against the global share (0 when the tool is globally absent), both
`Math.round`ed as in the source. -/
def distEntryOf (recent pfilter : String → Bool) (db : DBState) (p : String)
    (tc : String × Nat) : DistEntry :=
  { tool := tc.1, count := tc.2,
    pct := (⌊(tc.2 : ℚ) / (projTotal recent pfilter db p : ℚ) * 1000 + 1/2⌋ : ℚ) / 10,
    enrichment := (⌊(if 0 < (globalToolCount recent db tc.1 : ℚ) /
          (globalTotal recent db : ℚ) then
        ((tc.2 : ℚ) / (projTotal recent pfilter db p : ℚ)) /
          ((globalToolCount recent db tc.1 : ℚ) / (globalTotal recent db : ℚ))
      else 0) * 100 + 1/2⌋ : ℚ) / 100 }

/-- The multi-tool signatures of one project's turns. -/
def projSigs (recent pfilter : String → Bool) (db : DBState) (p : String) :
    List (List String) :=
  (joinTS db).flatMap (fun q =>
    if recent q.2.started_at && !(q.2.project_path == "") &&
       pfilter q.2.project_path && (q.2.project_path == p) then
      match q.1.assistant_tools with
      | some ts => if 2 ≤ ts.length then [ts] else []
      | none => []
    else [])

/-- Embedding of `COUNT(DISTINCT project_path)` of the signature across all projects (no
project filter, as in the source's `global_sig` CTE). -/
def sigSpread (recent : String → Bool) (db : DBState) (sig : List String) : Nat :=
  (((joinTS db).flatMap (fun q =>
    if recent q.2.started_at && !(q.2.project_path == "") &&
       (q.1.assistant_tools == some sig) then [q.2.project_path]
    else [])).dedup).length

/-- The project-unique sequences: signatures appearing in exactly one
project and at least twice within it, ordered by count descending and
rendered with `" → "`. -/
def uniqueSequencesOf (recent pfilter : String → Bool) (db : DBState)
    (p : String) : List (String × Nat) :=
  let sigs := (projSigs recent pfilter db p).dedup
  let counted := sigs.map (fun sig => (sig, (projSigs recent pfilter db p).count sig))
  let kept := counted.filter (fun x =>
    decide (sigSpread recent db x.1 = 1) && decide (2 ≤ x.2))
  (List.insertionSort sndDescOrder kept).map (fun x => (jsJoin " → " x.1, x.2))

/-- The profile assembled for one project. -/
def profileFor (recent pfilter : String → Bool) (db : DBState) (p : String) :
    ProjectProfileData :=
  { projectPath := p,
    sessionCount := statsSessions recent pfilter db p,
    turnCount := statsTurns recent pfilter db p,
    toolDistribution :=
      (toolRowsOf recent pfilter db p).map (distEntryOf recent pfilter db p),
    uniqueSequences := uniqueSequencesOf recent pfilter db p }

/-- Embedding of `sort by turn count descending` on profiles. -/
def turnCountDescOrder (a b : ProjectProfileData) : Prop :=
  b.turnCount ≤ a.turnCount

instance : DecidableRel turnCountDescOrder := by
  intro a b
  unfold turnCountDescOrder
  infer_instance

instance : IsTotal ProjectProfileData turnCountDescOrder :=
  ⟨fun a b => le_total b.turnCount a.turnCount⟩

instance : IsTrans ProjectProfileData turnCountDescOrder :=
  ⟨fun _ _ _ hab hbc => le_trans hbc hab⟩

/-- Embedding of `getProjectProfiles`: one profile per project with tool usage, sorted by
turn count descending. -/
def getProjectProfiles (recent pfilter : String → Bool) (db : DBState) :
    List ProjectProfileData :=
  List.insertionSort turnCountDescOrder
    ((projectsOf recent pfilter db).map (profileFor recent pfilter db))

/-- C6 (amended): for every profile and distribution entry, if the entry's
tool is used only in that project (its global occurrence count equals its
count there) and the project's share of the tool strictly exceeds the global
share, then the unrounded enrichment ratio is strictly greater than 1 and
the reported two-decimal enrichment is at least 1.0.  The reported value can
be exactly 1.0 (not strictly greater) when the ratio is below 1.005, which
refutes the claim as stated — see the counterexample. -/
theorem getProjectProfiles_enrichment (recent pfilter : String → Bool)
    (db : DBState) (prof : ProjectProfileData) (ent : DistEntry)
    (hprof : prof ∈ getProjectProfiles recent pfilter db)
    (hent : ent ∈ prof.toolDistribution)
    (honly : globalToolCount recent db ent.tool =
      projToolCount recent pfilter db prof.projectPath ent.tool)
    (hshare : (globalToolCount recent db ent.tool : ℚ) /
        (globalTotal recent db : ℚ) <
      (projToolCount recent pfilter db prof.projectPath ent.tool : ℚ) /
        (projTotal recent pfilter db prof.projectPath : ℚ)) :
    1 < ((projToolCount recent pfilter db prof.projectPath ent.tool : ℚ) /
          (projTotal recent pfilter db prof.projectPath : ℚ)) /
        ((globalToolCount recent db ent.tool : ℚ) /
          (globalTotal recent db : ℚ)) ∧
    1 ≤ ent.enrichment := by
  have hprof2 := (List.perm_insertionSort turnCountDescOrder _).subset hprof
  obtain ⟨p, hp, hprofeq⟩ := List.mem_map.mp hprof2
  subst hprofeq
  simp only [profileFor] at hent honly hshare ⊢
  obtain ⟨tc, htc, henteq⟩ := List.mem_map.mp hent
  subst henteq
  have htc2 := (List.perm_insertionSort sndDescOrder _).subset htc
  obtain ⟨t, htmem, htceq⟩ := List.mem_map.mp htc2
  subst htceq
  simp only [distEntryOf] at honly hshare ⊢
  have htocc : t ∈ projOccs recent pfilter db p := List.mem_dedup.mp htmem
  have hcpos : 0 < (projOccs recent pfilter db p).count t :=
    List.count_pos_iff.mpr htocc
  have hgc : globalToolCount recent db t =
      (projOccs recent pfilter db p).count t := by
    rw [honly]
    rfl
  have hPpos : (0 : ℚ) < (projTotal recent pfilter db p : ℚ) := by
    have h1 : (projOccs recent pfilter db p).count t ≤
        projTotal recent pfilter db p := List.count_le_length _ _
    have : 0 < projTotal recent pfilter db p := lt_of_lt_of_le hcpos h1
    exact_mod_cast this
  have hGpos : (0 : ℚ) < (globalTotal recent db : ℚ) := by
    have h1 : globalToolCount recent db t ≤ globalTotal recent db :=
      List.count_le_length _ _
    have h2 : 0 < globalToolCount recent db t := by
      rw [hgc]
      exact hcpos
    have : 0 < globalTotal recent db := lt_of_lt_of_le h2 h1
    exact_mod_cast this
  have hcq : (0 : ℚ) < ((projOccs recent pfilter db p).count t : ℚ) := by
    exact_mod_cast hcpos
  have hshare2 : (globalToolCount recent db t : ℚ) / (globalTotal recent db : ℚ) <
      ((projOccs recent pfilter db p).count t : ℚ) /
        (projTotal recent pfilter db p : ℚ) := by
    have hpc : projToolCount recent pfilter db p t =
        (projOccs recent pfilter db p).count t := rfl
    calc (globalToolCount recent db t : ℚ) / (globalTotal recent db : ℚ)
        < (projToolCount recent pfilter db p t : ℚ) /
            (projTotal recent pfilter db p : ℚ) := hshare
      _ = ((projOccs recent pfilter db p).count t : ℚ) /
            (projTotal recent pfilter db p : ℚ) := by rw [hpc]
  have hgq : (0 : ℚ) < (globalToolCount recent db t : ℚ) /
      (globalTotal recent db : ℚ) := by
    apply div_pos _ hGpos
    have : 0 < globalToolCount recent db t := by
      rw [hgc]
      exact hcpos
    exact_mod_cast this
  have h1 : 1 < (((projOccs recent pfilter db p).count t : ℚ) /
      (projTotal recent pfilter db p : ℚ)) /
      ((globalToolCount recent db t : ℚ) / (globalTotal recent db : ℚ)) :=
    (one_lt_div hgq).mpr hshare2
  refine ⟨h1, ?_⟩
  rw [if_pos hgq]
  have hx : ((100 : ℤ) : ℚ) ≤ (((projOccs recent pfilter db p).count t : ℚ) /
      (projTotal recent pfilter db p : ℚ)) /
      ((globalToolCount recent db t : ℚ) / (globalTotal recent db : ℚ)) * 100 +
      1/2 := by
    push_cast
    nlinarith [h1]
  have hfloor := Int.le_floor.mpr hx
  rw [le_div_iff₀ (by norm_num : (0:ℚ) < 100)]
  have : ((100 : ℤ) : ℚ) ≤ (⌊(((projOccs recent pfilter db p).count t : ℚ) /
      (projTotal recent pfilter db p : ℚ)) /
      ((globalToolCount recent db t : ℚ) / (globalTotal recent db : ℚ)) * 100 +
      1/2⌋ : ℚ) := by exact_mod_cast hfloor
  linarith

/-- A store in which tool `T` is used once, only in project `/p` (whose
total tool usage is 201), while the global total is 202: the enrichment
ratio is `202/201 ≈ 1.005`, whose two-decimal rounding is exactly `1.0`. -/
def c6DB : DBState :=
  { sessions :=
      [ { id := "a", project_path := "/p", project_hash := "h", jsonl_path := "f1",
          started_at := "2025-01-01", last_activity_at := "2025-01-01",
          version := "", git_branch := "", turn_count := 1, last_synced_bytes := 10 },
        { id := "b", project_path := "/q", project_hash := "h2", jsonl_path := "f2",
          started_at := "2025-01-02", last_activity_at := "2025-01-02",
          version := "", git_branch := "", turn_count := 1, last_synced_bytes := 10 } ]
    turns :=
      [ { session_id := "a", turn_number := 1, user_prompt := "work",
          user_prompt_at := "t1", assistant_text := "ok",
          assistant_tools := some ("T" :: List.replicate 200 "X"),
          assistant_at := "t2", model := "" },
        { session_id := "b", turn_number := 1, user_prompt := "work too",
          user_prompt_at := "t3", assistant_text := "ok",
          assistant_tools := some ["X"], assistant_at := "t4", model := "" } ] }

set_option maxRecDepth 8000 in
theorem c6_e1 : globalToolCount allB c6DB "T" = 1 := by decide

set_option maxRecDepth 8000 in
theorem c6_e2 : globalTotal allB c6DB = 202 := by decide

set_option maxRecDepth 8000 in
theorem c6_e3 : projToolCount allB allB c6DB "/p" "T" = 1 := by decide

set_option maxRecDepth 8000 in
theorem c6_e4 : projTotal allB allB c6DB "/p" = 201 := by decide

set_option maxRecDepth 8000 in
theorem c6_trow : ("T", (1 : Nat)) ∈ toolRowsOf allB allB c6DB "/p" := by
  unfold toolRowsOf
  refine ((List.perm_insertionSort sndDescOrder _).mem_iff).mpr ?_
  decide

set_option maxRecDepth 8000 in
/-- C6 counterexample: the claim asserts the reported (two-decimal-rounded)
enrichment ratio is strictly greater than 1.0 whenever a tool is exclusive
to a project and the project share exceeds the global share; in `c6DB` the
hypotheses hold for tool `T` in `/p` yet the reported ratio is exactly 1. -/
theorem getProjectProfiles_enrichment_counterexample :
    ¬ (∀ (recent pfilter : String → Bool) (db : DBState)
        (prof : ProjectProfileData) (ent : DistEntry),
        prof ∈ getProjectProfiles recent pfilter db →
        ent ∈ prof.toolDistribution →
        globalToolCount recent db ent.tool =
          projToolCount recent pfilter db prof.projectPath ent.tool →
        (globalToolCount recent db ent.tool : ℚ) / (globalTotal recent db : ℚ) <
          (projToolCount recent pfilter db prof.projectPath ent.tool : ℚ) /
            (projTotal recent pfilter db prof.projectPath : ℚ) →
        1 < ent.enrichment) := by
  intro h
  have hmem : "/p" ∈ projectsOf allB allB c6DB := by decide
  have hprof : profileFor allB allB c6DB "/p" ∈ getProjectProfiles allB allB c6DB :=
    ((List.perm_insertionSort turnCountDescOrder _).mem_iff).mpr
      (List.mem_map_of_mem _ hmem)
  have hent : distEntryOf allB allB c6DB "/p" ("T", 1) ∈
      (profileFor allB allB c6DB "/p").toolDistribution :=
    List.mem_map_of_mem _ c6_trow
  have h2 := h allB allB c6DB (profileFor allB allB c6DB "/p")
    (distEntryOf allB allB c6DB "/p" ("T", 1)) hprof hent
    (by
      simp only [distEntryOf, profileFor]
      rw [c6_e1, c6_e3])
    (by
      simp only [distEntryOf, profileFor]
      rw [c6_e1, c6_e2, c6_e3, c6_e4]
      norm_num)
  have hval : (distEntryOf allB allB c6DB "/p" ("T", 1)).enrichment = 1 := by
    simp only [distEntryOf]
    rw [c6_e1, c6_e2, c6_e4]
    rw [if_pos (by norm_num)]
    have harg : ((1 : Nat) : ℚ) / ((201 : Nat) : ℚ) /
        (((1 : Nat) : ℚ) / ((202 : Nat) : ℚ)) * 100 + 1/2 = 40601/402 := by
      push_cast
      norm_num
    rw [harg]
    have hfl : ⌊(40601/402 : ℚ)⌋ = 100 := by
      rw [Int.floor_eq_iff]
      constructor
      · norm_num
      · norm_num
    rw [hfl]
    norm_num
  rw [hval] at h2
  exact absurd h2 (by norm_num)

/-- A store in which tool `T` is exclusive to `/p` with a large enrichment
ratio. -/
def w6DB : DBState :=
  { sessions :=
      [ { id := "a", project_path := "/p", project_hash := "h", jsonl_path := "f1",
          started_at := "2025-01-01", last_activity_at := "2025-01-01",
          version := "", git_branch := "", turn_count := 1, last_synced_bytes := 10 },
        { id := "b", project_path := "/q", project_hash := "h2", jsonl_path := "f2",
          started_at := "2025-01-02", last_activity_at := "2025-01-02",
          version := "", git_branch := "", turn_count := 1, last_synced_bytes := 10 } ]
    turns :=
      [ { session_id := "a", turn_number := 1, user_prompt := "work",
          user_prompt_at := "t1", assistant_text := "ok",
          assistant_tools := some ["T"], assistant_at := "t2", model := "" },
        { session_id := "b", turn_number := 1, user_prompt := "work too",
          user_prompt_at := "t3", assistant_text := "ok",
          assistant_tools := some ["X", "X"], assistant_at := "t4", model := "" } ] }

set_option maxRecDepth 8000 in
theorem getProjectProfiles_enrichment_witness :
    1 < ((projToolCount allB allB w6DB "/p" "T" : ℚ) /
          (projTotal allB allB w6DB "/p" : ℚ)) /
        ((globalToolCount allB w6DB "T" : ℚ) / (globalTotal allB w6DB : ℚ)) ∧
    1 ≤ (distEntryOf allB allB w6DB "/p" ("T", 1)).enrichment := by
  have hmem : "/p" ∈ projectsOf allB allB w6DB := by decide
  have hprof : profileFor allB allB w6DB "/p" ∈ getProjectProfiles allB allB w6DB :=
    ((List.perm_insertionSort turnCountDescOrder _).mem_iff).mpr
      (List.mem_map_of_mem _ hmem)
  have htrow : ("T", (1 : Nat)) ∈ toolRowsOf allB allB w6DB "/p" := by
    unfold toolRowsOf
    refine ((List.perm_insertionSort sndDescOrder _).mem_iff).mpr ?_
    decide
  have hent : distEntryOf allB allB w6DB "/p" ("T", 1) ∈
      (profileFor allB allB w6DB "/p").toolDistribution :=
    List.mem_map_of_mem _ htrow
  have e1 : globalToolCount allB w6DB "T" = 1 := by decide
  have e2 : globalTotal allB w6DB = 3 := by decide
  have e3 : projToolCount allB allB w6DB "/p" "T" = 1 := by decide
  have e4 : projTotal allB allB w6DB "/p" = 1 := by decide
  exact getProjectProfiles_enrichment allB allB w6DB
    (profileFor allB allB w6DB "/p") (distEntryOf allB allB w6DB "/p" ("T", 1))
    hprof hent
    (by
      simp only [distEntryOf, profileFor]
      rw [e1, e3])
    (by
      simp only [distEntryOf, profileFor]
      rw [e1, e2, e3, e4]
      norm_num)

end PromptPlayground
